import Mathlib

/-!
Shallow embedding of the WAST directive parser of the wain repository
(file spec-test/src/parser.rs): tokens, the scalar decoder for integer and
floating-point constants, the escape decoder for quoted strings, and the
recursive-descent directive parser with its single-point backtracking for
the module-directive ambiguity.

Modelling conventions:
* the external lexer is out of scope, so a parse runs over an already
  lexed list of tokens (the Lookahead Buffer becomes the token list of a
  parser state); byte offsets are not modelled;
* machine integers are Nat/Int with explicit powers of two where the
  source wraps or range-checks;
* IEEE floats are modelled by exact rationals plus the special values
  (infinities and a NaN marker); the source paths proved about below
  perform no rounding on the claimed inputs;
* fallible code returns Except; stateful parsing is explicit state
  passing over the parser state.
-/

namespace Wain

/-- Decidable equality for Except results, so that concrete runs of the
parser can be checked by the decide tactic. -/
instance instDecEqExcept {ε α : Type} [DecidableEq ε] [DecidableEq α] :
    DecidableEq (Except ε α) := fun a b =>
  match a, b with
  | .ok x, .ok y =>
    match decEq x y with
    | isTrue h => isTrue (by rw [h])
    | isFalse h => isFalse (by intro hc; cases hc; exact h rfl)
  | .error x, .error y =>
    match decEq x y with
    | isTrue h => isTrue (by rw [h])
    | isFalse h => isFalse (by intro hc; cases hc; exact h rfl)
  | .ok _, .error _ => isFalse (by intro hc; cases hc)
  | .error _, .ok _ => isFalse (by intro hc; cases hc)

/-- Sign of a numeric literal, as produced by the external lexer
(wain-syntax-text, enum Sign). -/
inductive Sign where
  | plus
  | minus
deriving DecidableEq

/-- Numeric base of an integer or float literal (enum NumBase). -/
inductive NumBase where
  | dec
  | hex
deriving DecidableEq

/-- Payload of a float token (enum Float of the lexer): a NaN with an
optional payload text, infinity, or a value with fraction text and an
optional exponent. -/
inductive FloatTok where
  | nan (payload : Option (List Char))
  | inf
  | val (base : NumBase) (frac : List Char) (exp : Option (Sign × List Char))
deriving DecidableEq

/-- Lexical token (enum Token of the lexer), as consumed by the parser.
A string token carries the raw text between its delimiters. -/
inductive Tok where
  | lparen
  | rparen
  | keyword (k : String)
  | ident (id : String)
  | str (s : List Char)
  | int (sign : Sign) (base : NumBase) (digits : List Char)
  | float (sign : Sign) (f : FloatTok)
deriving DecidableEq

/-- Error kind (enum ErrorKind of spec-test/src/error.rs, as used by the
parser). The token of an unexpected-token error and the parameters of the
literal-decode errors are kept; the wat constructor stands for a
structural error converted from the external module compiler, carried as
an opaque code. The loopFuel kind is produced only when a loop-fuel
counter runs out; the wrappers below always pass enough fuel for the
loops of the source, which consume at least one token or character per
iteration. -/
inductive ErrKind where
  | unexpected (expected : String) (token : Option Tok)
  | invalidInt (ty : String)
  | tooSmallInt (ty : String) (digits : Nat)
  | invalidFloat (ty : String)
  | invalidHexFloat (ty : String)
  | invalidStringLiteral (lit : List Char) (reason : String)
  | utf8Error
  | wat (code : Nat)
  | loopFuel
deriving DecidableEq

/-- Structured parse error (struct Error of spec-test/src/error.rs):
a kind plus an optional link to one prior discarded error
(field prev_error: Option of a boxed Error, hence the recursion). -/
inductive PError where
  | mk0 (kind : ErrKind)
  | mk1 (kind : ErrKind) (prev : PError)
deriving DecidableEq

/-- The kind of an error. -/
def PError.kind : PError → ErrKind
  | .mk0 k => k
  | .mk1 k _ => k

/-- The prev_error link of an error. -/
def PError.prev : PError → Option PError
  | .mk0 _ => none
  | .mk1 _ p => some p

/-- Length of the prior-error chain hanging off an error. -/
def PError.depth : PError → Nat
  | .mk0 _ => 0
  | .mk1 _ p => p.depth + 1

/-- Parser state: the remaining tokens of the Lookahead Buffer plus the
ignored_error slot holding a discarded speculative-parse error. -/
structure PState where
  toks : List Tok
  ignoredError : Option PError
deriving DecidableEq

/-- Parser::error: build an error of the given kind; if an ignored error
is pending, take it, clear its own prev_error link ("do not chain all
errors") and attach it, emptying the slot. -/
def Parser.error (st : PState) (kind : ErrKind) : PError × PState :=
  match st.ignoredError with
  | some ig => (.mk1 kind (.mk0 ig.kind), { st with ignoredError := none })
  | none => (.mk0 kind, st)

/-! ## Scalar decoder: integers (parse_int_fn in Const::parse) -/

/-- char::to_digit(16). -/
def toDigitHex (c : Char) : Option Nat :=
  if '0' ≤ c ∧ c ≤ '9' then some (c.toNat - '0'.toNat)
  else if 'a' ≤ c ∧ c ≤ 'f' then some (c.toNat - 'a'.toNat + 10)
  else if 'A' ≤ c ∧ c ≤ 'F' then some (c.toNat - 'A'.toNat + 10)
  else none

/-- char::to_digit(10). -/
def toDigitDec (c : Char) : Option Nat :=
  if '0' ≤ c ∧ c ≤ '9' then some (c.toNat - '0'.toNat)
  else none

/-- Digit value of a character in the given base. -/
def NumBase.digit? : NumBase → Char → Option Nat
  | .dec, c => toDigitDec c
  | .hex, c => toDigitHex c

/-- Radix of a base. -/
def NumBase.radix : NumBase → Nat
  | .dec => 10
  | .hex => 16

/-- Accumulate the value of a digit string; none on the first invalid
character. -/
def digitsValAux (base : NumBase) : Nat → List Char → Option Nat
  | acc, [] => some acc
  | acc, c :: cs =>
    match base.digit? c with
    | some d => digitsValAux base (acc * base.radix + d) cs
    | none => none

/-- Value of a nonempty all-digit string in the given base; none if the
string is empty or holds a character that is not a digit of the base
(the lexer emits pure digit text, so explicit signs are not modelled). -/
def digitsVal? (base : NumBase) (cs : List Char) : Option Nat :=
  match cs with
  | [] => none
  | _ => digitsValAux base 0 cs

/-- uNN::from_str_radix / str::parse::<uNN> on a digit string: the digit
value when it exists and fits the unsigned width, none otherwise (a
value at or above 2 to the w-th is an overflow error in the source). -/
def parseUnsigned (base : NumBase) (w : Nat) (cs : List Char) : Option Nat :=
  match digitsVal? base cs with
  | some v => if v < 2 ^ w then some v else none
  | none => none

/-- u as iNN: reinterpret an unsigned w-bit value as two's-complement. -/
def toSigned (w : Nat) (u : Nat) : ℤ :=
  if u < 2 ^ (w - 1) then (u : ℤ) else (u : ℤ) - 2 ^ w

/-- parse_int_fn of Const::parse: strip separator underscores, parse as
an unsigned integer of the target width, then apply the sign with the
two's-complement wraparound rule of the source:
a positive sign reinterprets; a negative magnitude of exactly
signed-max plus one gives signed-min; a negative magnitude within the
signed range negates; any larger negative magnitude is TooSmallInt;
an unsigned-parse failure is InvalidInt. -/
def parse_int_fn (w : Nat) (ty : String) (sign : Sign) (base : NumBase)
    (digits : List Char) : Except ErrKind ℤ :=
  match parseUnsigned base w (digits.filter (fun c => c ≠ '_')) with
  | none => .error (.invalidInt ty)
  | some u =>
    match sign with
    | .plus => .ok (toSigned w u)
    | .minus =>
      if u = 2 ^ (w - 1) then .ok (-(2 ^ (w - 1) : ℤ))
      else if u ≤ 2 ^ (w - 1) - 1 then .ok (-(u : ℤ))
      else .error (.tooSmallInt ty u)

/-- parse_i32 (parse_int_fn!(parse_i32, i32, u32)). -/
def parse_i32 : Sign → NumBase → List Char → Except ErrKind ℤ :=
  parse_int_fn 32 "i32"

/-- parse_i64 (parse_int_fn!(parse_i64, i64, u64)). -/
def parse_i64 : Sign → NumBase → List Char → Except ErrKind ℤ :=
  parse_int_fn 64 "i64"

/-! ## Scalar decoder: floats (parse_float_fn in Const::parse)

The target widths of the source compute on f32/f64; the model computes on
exact rationals, which agrees with the source wherever the source incurs
no rounding (in particular on every concrete value claimed by the spec). -/

/-- Model of an f32/f64 value: an exact rational, an infinity, or a NaN
marker carrying its sign bit (the payload of a source NaN is not
reproduced by the parser). -/
inductive FVal where
  | num (q : ℚ)
  | inf
  | negInf
  | nan (neg : Bool)
deriving DecidableEq

/-- Whether a modelled float value is a NaN. -/
def FVal.isNaN : FVal → Bool
  | .nan _ => true
  | _ => false

/-- Sign::apply on a rational. -/
def Sign.applyRat : Sign → ℚ → ℚ
  | .plus, q => q
  | .minus, q => -q

/-- Sign::apply on an integer (used for the p-exponent of a hex float). -/
def Sign.applyInt : Sign → ℤ → ℤ
  | .plus, i => i
  | .minus, i => -i

/-- Sign::apply on a modelled float value (float negation flips the sign
bit, also of a NaN and of infinity). -/
def Sign.applyFVal : Sign → FVal → FVal
  | .plus, f => f
  | .minus, .num q => .num (-q)
  | .minus, .inf => .negInf
  | .minus, .negInf => .inf
  | .minus, .nan b => .nan (!b)

/-- digitsValAux without the nonempty requirement: value of a possibly
empty all-digit string. -/
def allDigitsVal (base : NumBase) (cs : List Char) : Option Nat :=
  digitsValAux base 0 cs

/-- Exact value of the mantissa part of a decimal float string accepted
by str::parse::<fNN>: digits with at most one radix point, not all
empty. -/
def decMant? (cs : List Char) : Option ℚ :=
  let ip := cs.takeWhile (fun c => c != '.')
  let rest := cs.dropWhile (fun c => c != '.')
  match rest with
  | [] => (digitsVal? .dec ip).map (fun n => (n : ℚ))
  | _ :: fp =>
    if fp.any (fun c => c == '.') then none
    else if ip = [] ∧ fp = [] then none
    else
      match allDigitsVal .dec ip, allDigitsVal .dec fp with
      | some ni, some nf => some ((ni : ℚ) + (nf : ℚ) / (10 : ℚ) ^ fp.length)
      | _, _ => none

/-- Exponent part of a decimal float string: optional sign, then a
nonempty digit string. -/
def decExp? : List Char → Option ℤ
  | '-' :: ds => (digitsVal? .dec ds).map (fun n => -(n : ℤ))
  | '+' :: ds => (digitsVal? .dec ds).map (fun n => (n : ℤ))
  | ds => (digitsVal? .dec ds).map (fun n => (n : ℤ))

/-- Exact-rational model of str::parse::<fNN> on the decimal strings the
parser builds (mantissa, optional E-marked exponent); none models a
parse error. -/
def decStrToRat? (cs : List Char) : Option ℚ :=
  let m := cs.takeWhile (fun c => c != 'e' && c != 'E')
  let r := cs.dropWhile (fun c => c != 'e' && c != 'E')
  match decMant? m with
  | none => none
  | some v =>
    match r with
    | [] => some v
    | _ :: ecs =>
      match decExp? ecs with
      | some i => some (v * (10 : ℚ) ^ i)
      | none => none

/-- Second loop of the hex-float mantissa scan (after the radix point):
value accumulates digit over a step starting at 16 and multiplying by 16,
underscores are skipped, any other character is an error (none). -/
def hexMantLoop2 (f step : ℚ) : List Char → Option ℚ
  | [] => some f
  | c :: cs =>
    match toDigitHex c with
    | some u => hexMantLoop2 (f + (u : ℚ) / step) (step * 16) cs
    | none => if c = '_' then hexMantLoop2 f step cs else none

/-- First loop of the hex-float mantissa scan (before the radix point):
value accumulates as value times 16 plus digit, a radix point switches to
the second loop, underscores are skipped, any other character is an
error (none). -/
def hexMantLoop1 (f : ℚ) : List Char → Option ℚ
  | [] => some f
  | c :: cs =>
    match toDigitHex c with
    | some u => hexMantLoop1 (f * 16 + (u : ℚ)) cs
    | none =>
      if c = '.' then hexMantLoop2 f 16 cs
      else if c = '_' then hexMantLoop1 f cs
      else none

/-- parse_float_fn of Const::parse. Decimal form: rebuild a decimal
string (fraction text with underscores removed, then an E-marked,
possibly negated exponent) and convert with the native decimal-to-float
conversion, applying the overall sign last. Hexadecimal form: scan the
mantissa with the two loops above, then multiply by 2 to the decimal
p-exponent (parsed as an i32; overflow is an invalid-hex-float error),
then apply the overall sign. -/
def parse_float_fn (ty : String) (sign : Sign) (base : NumBase) (frac : List Char)
    (exp : Option (Sign × List Char)) : Except ErrKind ℚ :=
  match base with
  | .dec =>
    let s := frac.filter (fun c => c ≠ '_') ++
      (match exp with
       | some (es, ds) =>
         'E' :: ((if es = Sign.minus then ['-'] else []) ++ ds.filter (fun c => c ≠ '_'))
       | none => [])
    match decStrToRat? s with
    | some q => .ok (sign.applyRat q)
    | none => .error (.invalidFloat ty)
  | .hex =>
    match hexMantLoop1 0 frac with
    | none => .error (.invalidHexFloat ty)
    | some f =>
      match exp with
      | none => .ok (sign.applyRat f)
      | some (es, ds) =>
        match digitsVal? .dec (ds.filter (fun c => c ≠ '_')) with
        | some n =>
          if n ≤ 2 ^ 31 - 1 then
            .ok (sign.applyRat (f * (2 : ℚ) ^ (Sign.applyInt es (n : ℤ))))
          else .error (.invalidHexFloat ty)
        | none => .error (.invalidHexFloat ty)

/-- parse_f32 (parse_float_fn!(parse_f32, f32)). -/
def parse_f32 : Sign → NumBase → List Char → Option (Sign × List Char) →
    Except ErrKind ℚ :=
  parse_float_fn "f32"

/-- parse_f64 (parse_float_fn!(parse_f64, f64)). -/
def parse_f64 : Sign → NumBase → List Char → Option (Sign × List Char) →
    Except ErrKind ℚ :=
  parse_float_fn "f64"

/-! ## Escape decoder (Parser::parse_escaped, Parser::parse_escaped_text) -/

/-- char::encode_utf8: the UTF-8 bytes of a character. -/
def utf8Encode (c : Char) : List Nat :=
  let n := c.toNat
  if n < 128 then [n]
  else if n < 2048 then [192 + n / 64, 128 + n % 64]
  else if n < 65536 then [224 + n / 4096, 128 + n / 64 % 64, 128 + n % 64]
  else [240 + n / 262144, 128 + n / 4096 % 64, 128 + n / 64 % 64, 128 + n % 64]

/-- String::from_utf8: strict UTF-8 decoding of a byte sequence into
characters; none on any ill-formed sequence (continuation bytes out of
place, overlong forms, surrogates, values past the last scalar). -/
def utf8Decode? : List Nat → Option (List Char)
  | [] => some []
  | b :: rest =>
    if b < 128 then (utf8Decode? rest).map (fun cs => Char.ofNat b :: cs)
    else if b < 194 then none
    else if b < 224 then
      match rest with
      | b2 :: rest2 =>
        if 128 ≤ b2 ∧ b2 < 192 then
          (utf8Decode? rest2).map (fun cs => Char.ofNat ((b - 192) * 64 + (b2 - 128)) :: cs)
        else none
      | [] => none
    else if b < 240 then
      match rest with
      | b2 :: b3 :: rest2 =>
        if (if b = 224 then 160 ≤ b2 ∧ b2 < 192
            else if b = 237 then 128 ≤ b2 ∧ b2 < 160
            else 128 ≤ b2 ∧ b2 < 192) ∧ 128 ≤ b3 ∧ b3 < 192 then
          (utf8Decode? rest2).map
            (fun cs => Char.ofNat ((b - 224) * 4096 + (b2 - 128) * 64 + (b3 - 128)) :: cs)
        else none
      | _ => none
    else if b < 245 then
      match rest with
      | b2 :: b3 :: b4 :: rest2 =>
        if (if b = 240 then 144 ≤ b2 ∧ b2 < 192
            else if b = 244 then 128 ≤ b2 ∧ b2 < 144
            else 128 ≤ b2 ∧ b2 < 192) ∧ 128 ≤ b3 ∧ b3 < 192 ∧ 128 ≤ b4 ∧ b4 < 192 then
          (utf8Decode? rest2).map
            (fun cs =>
              Char.ofNat ((b - 240) * 262144 + (b2 - 128) * 4096 + (b3 - 128) * 64 + (b4 - 128))
                :: cs)
        else none
      | _ => none
    else none

/-- The scan for the closing brace of a Unicode escape: the characters up
to the first closing brace, and the characters after it; none when no
closing brace remains (the source reports an invalid format then). -/
def splitAtBrace : List Char → Option (List Char × List Char)
  | [] => none
  | c :: cs =>
    if c = '\x7d' then some ([], cs)
    else (splitAtBrace cs).map (fun p => (c :: p.1, p.2))

/-- Reason text of an invalid two-hex-digit escape. -/
def badXX : String := "invalid \\XX format"

/-- Reason text of a malformed Unicode escape. -/
def badU : String := "invalid \\u\x7bxxxx\x7d format"

/-- Reason text of an invalid code point in a Unicode escape. -/
def badCode : String := "invalid code point in \\u\x7bxxxx\x7d"

/-- One iteration of the Parser::parse_escaped loop: at the end of the
text, none; otherwise the bytes contributed by the next (possibly
escaped) character and the remaining text. A character other than a
backslash contributes its UTF-8 bytes; a backslash must be followed by a
recognized escape: the six single-character escapes with their fixed
bytes, a Unicode escape (scan to the closing brace, parse the hex
scalar, re-encode as UTF-8), or two hex digits giving one raw byte.
The arm for a trailing backslash is unreachable in the source (the lexer
guarantees a character after every backslash; the source unwraps). -/
def escStep : List Char → Except String (Option (List Nat × List Char))
  | [] => .ok none
  | c :: cs =>
    if c ≠ '\\' then .ok (some (utf8Encode c, cs))
    else
      match cs with
      | [] => .error badXX
      | 't' :: cs2 => .ok (some ([9], cs2))
      | 'n' :: cs2 => .ok (some ([10], cs2))
      | 'r' :: cs2 => .ok (some ([13], cs2))
      | '"' :: cs2 => .ok (some ([34], cs2))
      | '\'' :: cs2 => .ok (some ([39], cs2))
      | '\\' :: cs2 => .ok (some ([92], cs2))
      | 'u' :: cs2 =>
        match cs2 with
        | c2 :: cs3 =>
          if c2 = '\x7b' then
            match splitAtBrace cs3 with
            | some (inner, rest) =>
              match digitsVal? .hex inner with
              | some n =>
                if n < 55296 ∨ (57344 ≤ n ∧ n < 1114112) then
                  .ok (some (utf8Encode (Char.ofNat n), rest))
                else .error badCode
              | none => .error badCode
            | none => .error badU
          else .error badU
        | [] => .error badU
      | c1 :: cs2 =>
        match toDigitHex c1 with
        | some hi =>
          match cs2 with
          | c2 :: cs3 =>
            match toDigitHex c2 with
            | some lo => .ok (some ([hi * 16 + lo], cs3))
            | none => .error badXX
          | [] => .error badXX
        | none => .error badXX

/-- The Parser::parse_escaped loop, driven by a fuel counter: every
iteration consumes at least one character, so the wrapper below always
passes enough fuel. -/
def escapeGo : Nat → List Char → Except String (List Nat)
  | 0, _ => .error "out of fuel"
  | fuel + 1, cs =>
    match escStep cs with
    | .error e => .error e
    | .ok none => .ok []
    | .ok (some (bs, rest)) => (escapeGo fuel rest).map (fun tl => bs ++ tl)

/-- Parser::parse_escaped as a pure function of the raw string text:
the decoded byte sequence, or the reason of the decode error. -/
def escapeBytes (cs : List Char) : Except String (List Nat) :=
  escapeGo (cs.length + 1) cs

/-! ## Parser state monad and primitives -/

/-- The parser computation type: explicit state passing over PState.
Errors also carry the parser state at the error site: the source mutates
the parser in place, and Directive::parse keeps using the parser after a
failed speculative parse. -/
def PM (α : Type) : Type := PState → Except (PError × PState) (α × PState)

/-- pure of the parser monad. -/
def PM.pure {α : Type} (a : α) : PM α := fun st => .ok (a, st)

/-- bind of the parser monad (the ? operator of the source). -/
def PM.bind {α β : Type} (m : PM α) (f : α → PM β) : PM β := fun st =>
  match m st with
  | .ok (a, st2) => f a st2
  | .error e => .error e

instance : Monad PM where
  pure := PM.pure
  bind := PM.bind

/-- Parser::fail: raise an error of the given kind at the current state,
through Parser::error (so a pending ignored error is attached). -/
def Parser.fail {α : Type} (kind : ErrKind) : PM α := fun st =>
  .error (Parser.error st kind)

/-- Parser::unexpected. -/
def Parser.unexpected {α : Type} (expected : String) : PM α :=
  Parser.fail (.unexpected expected none)

/-- Parser::unexpected_token. -/
def Parser.unexpected_token {α : Type} (token : Option Tok) (expected : String) :
    PM α :=
  Parser.fail (.unexpected expected token)

/-- Parser::consume: the next token (advancing), or none at the end of
input (lexical errors of the external Token Source are out of scope). -/
def Parser.consume : PM (Option Tok) := fun st =>
  match st.toks with
  | t :: rest => .ok (some t, { st with toks := rest })
  | [] => .ok (none, st)

/-- Parser::peek: the next two tokens, without advancing. -/
def Parser.peek : PM (Option Tok × Option Tok) := fun st =>
  .ok ((st.toks.head?, st.toks.tail.head?), st)

/-- Parser::parse_start: an opening parenthesis, then the given
directive keyword. -/
def Parser.parse_start (directive : String) : PM Unit := do
  match ← Parser.consume with
  | some .lparen =>
    match ← Parser.consume with
    | some (.keyword k) =>
      if k = directive then pure ()
      else Parser.unexpected_token (some (.keyword k)) ("keyword for " ++ directive)
    | x => Parser.unexpected_token x ("keyword for " ++ directive)
  | x => Parser.unexpected_token x ("( for " ++ directive)

/-- Parser::parse_maybe_id: consume an identifier exactly when the next
token is an identifier atom. -/
def Parser.parse_maybe_id : PM (Option String) := do
  let (t1, _) ← Parser.peek
  match t1 with
  | some (.ident id) => do
    let _ ← Parser.consume
    pure (some id)
  | _ => pure none

/-- Parser::parse_escaped, lifted into the parser monad: the source
method decodes the raw string text and builds any decode error via
Parser::error at the current state. -/
def Parser.parse_escaped (s : List Char) : PM (List Nat) := fun st =>
  match escapeBytes s with
  | .ok bs => .ok (bs, st)
  | .error reason => .error (Parser.error st (.invalidStringLiteral s reason))

/-- Parser::parse_escaped_text: escape-decode, then require the bytes to
be valid UTF-8 text. -/
def Parser.parse_escaped_text (s : List Char) : PM (List Char) := do
  let bs ← Parser.parse_escaped s
  match utf8Decode? bs with
  | some t => pure t
  | none => Parser.fail .utf8Error

/-- The Parse impl for String: a string token, escape-decoded to text. -/
def parseString : PM (List Char) := do
  match ← Parser.consume with
  | some (.str s) => Parser.parse_escaped_text s
  | x => Parser.unexpected_token x "Token String"

/-- expect!(parser, Token::RParen): require a closing parenthesis. -/
def expectRParen : PM Unit := do
  match ← Parser.consume with
  | some .rparen => pure ()
  | x => Parser.unexpected_token x "Token RParen"

/-- Lift a pure decode result into the parser monad; a decode error is
raised through Parser::fail (the decode helpers of the source call
parser.fail at the current state). -/
def liftExcept {α : Type} (r : Except ErrKind α) : PM α :=
  match r with
  | .ok a => fun st => .ok (a, st)
  | .error k => Parser.fail k

/-! ## AST of the directives (crate::wast, as built by the parser;
the start offsets of the source nodes are not modelled) -/

/-- Payload of an embedded module (enum Embedded). -/
inductive Embedded where
  | quote (text : List Char)
  | binary (bin : List Nat)
deriving DecidableEq

/-- struct EmbeddedModule. -/
structure EmbeddedModule where
  embedded : Embedded
deriving DecidableEq

/-- Const (enum Const): exact integers, modelled floats, and the two NaN
marker variants. -/
inductive Const where
  | i32 (v : ℤ)
  | i64 (v : ℤ)
  | f32 (v : FVal)
  | f64 (v : FVal)
  | canonicalNan
  | arithmeticNan
deriving DecidableEq

/-- struct Invoke. -/
structure Invoke where
  id : Option String
  name : List Char
  args : List Const
deriving DecidableEq

/-- struct Register. -/
structure Register where
  name : List Char
  id : Option String
deriving DecidableEq

/-- struct GetGlobal. -/
structure GetGlobal where
  id : Option String
  name : List Char
deriving DecidableEq

/-- enum AssertReturn: an invoke with an optional expected constant, or a
global read with a required expected constant. -/
inductive AssertReturn where
  | invokeAct (invoke : Invoke) (expected : Option Const)
  | globalAct (get : GetGlobal) (expected : Const)
deriving DecidableEq

/-- struct AssertTrap. -/
structure AssertTrap where
  invoke : Invoke
  expected : List Char
deriving DecidableEq

/-- struct AssertMalformed. -/
structure AssertMalformed where
  moduleArg : EmbeddedModule
  expected : List Char
deriving DecidableEq

/-- struct AssertInvalid; the inline module is the value produced by the
external module compiler, kept abstract as M. -/
structure AssertInvalid (M : Type) where
  wat : M
  expected : List Char
deriving DecidableEq

/-- struct AssertUnlinkable. -/
structure AssertUnlinkable (M : Type) where
  wat : M
  expected : List Char
deriving DecidableEq

/-- struct AssertExhaustion. -/
structure AssertExhaustion where
  invoke : Invoke
  expected : List Char
deriving DecidableEq

/-- enum Directive: the top-level tagged union. -/
inductive Directive (M : Type) where
  | assertReturn (a : AssertReturn)
  | assertTrap (a : AssertTrap)
  | assertMalformed (a : AssertMalformed)
  | assertInvalid (a : AssertInvalid M)
  | assertUnlinkable (a : AssertUnlinkable M)
  | assertExhaustion (a : AssertExhaustion)
  | register (r : Register)
  | invoke (i : Invoke)
  | quoteModule (text : List Char)
  | binaryModule (bin : List Nat)
  | inlineModule (m : M)
deriving DecidableEq

/-- struct Root: the ordered directive sequence. -/
structure Root (M : Type) where
  directives : List (Directive M)
deriving DecidableEq

/-- The external Module Compiler Bridge (the wat parser of
wain-syntax-text plus wat2wasm), specified only at its interface.
Modelled from the spec: given the loaned token buffer positioned at an
inline module it produces a module value and hands the advanced buffer
back, or fails with a structural error (carried as an opaque code); the
loan discipline means a successful run consumed tokens from the same
stream, so the returned stream is a proper suffix of the input. -/
structure Compile (M : Type) where
  run : List Tok → Except Nat (M × List Tok)
  consumes : ∀ toks m toks2, run toks = .ok (m, toks2) →
    toks2.IsSuffix toks ∧ toks2.length < toks.length

/-- Modelled from the spec: the From conversion of spec-test/src/error.rs
wrapping a structural error of the external module compiler as a parser
error. The ? operator applies it outside Parser::error, and it is a pure
function of the compiler error alone, so the produced error carries no
prior-error link. -/
def convertWatError (code : Nat) : PError := .mk0 (.wat code)

/-! ## The recursive-descent rules -/

/-- Loop of the quote arm of EmbeddedModule::parse: string tokens are
escape-decoded to text and concatenated in order until the closing
parenthesis. -/
def quoteLoop (acc : List Char) (ig : Option PError) :
    List Tok → Except (PError × PState) (List Char × PState)
  | .str s :: rest =>
    match escapeBytes s with
    | .error reason =>
      .error (Parser.error ⟨rest, ig⟩ (.invalidStringLiteral s reason))
    | .ok bs =>
      match utf8Decode? bs with
      | none => .error (Parser.error ⟨rest, ig⟩ .utf8Error)
      | some t => quoteLoop (acc ++ t) ig rest
  | .rparen :: rest => .ok (acc, ⟨rest, ig⟩)
  | t :: rest =>
    .error (Parser.error ⟨rest, ig⟩ (.unexpected "string for module quote" (some t)))
  | [] => .error (Parser.error ⟨[], ig⟩ (.unexpected "string for module quote" none))

/-- Loop of the binary arm of EmbeddedModule::parse: string tokens are
escape-decoded to bytes (no text validation) and concatenated in order
until the closing parenthesis. -/
def binaryLoop (acc : List Nat) (ig : Option PError) :
    List Tok → Except (PError × PState) (List Nat × PState)
  | .str s :: rest =>
    match escapeBytes s with
    | .error reason =>
      .error (Parser.error ⟨rest, ig⟩ (.invalidStringLiteral s reason))
    | .ok bs => binaryLoop (acc ++ bs) ig rest
  | .rparen :: rest => .ok (acc, ⟨rest, ig⟩)
  | t :: rest =>
    .error (Parser.error ⟨rest, ig⟩ (.unexpected "string for module binary" (some t)))
  | [] => .error (Parser.error ⟨[], ig⟩ (.unexpected "string for module binary" none))

/-- EmbeddedModule::parse: '(module', an optional ignored identifier,
the keyword quote or binary, then the respective payload loop. -/
def EmbeddedModule.parse : PM EmbeddedModule := do
  Parser.parse_start "module"
  let (t1, _) ← Parser.peek
  (match t1 with
   | some (.ident _) => do
     let _ ← Parser.consume
     pure ()
   | _ => pure ())
  match ← Parser.consume with
  | some (.keyword kw) =>
    if kw = "quote" then do
      let text ← fun st => quoteLoop [] st.ignoredError st.toks
      pure ⟨.quote text⟩
    else if kw = "binary" then do
      let bin ← fun st => binaryLoop [] st.ignoredError st.toks
      pure ⟨.binary bin⟩
    else Parser.unexpected_token (some (.keyword kw)) "quote or binary"
  | x => Parser.unexpected_token x "quote or binary"

/-- Const::parse: '(', a tNN.const keyword, the operand (dispatching on
the token: integer, NaN-class keyword, NaN, infinity, or float value),
then ')'. An integer operand of a float keyword is decoded with
parse_i64 and converted to the float value. -/
def Const.parse : PM Const := do
  (match ← Parser.consume with
   | some .lparen => pure ()
   | x => Parser.unexpected_token x "Token LParen")
  let kw ←
    (match ← Parser.consume with
     | some (.keyword k) => Pure.pure k
     | x => Parser.unexpected_token x "Token Keyword")
  let c ←
    if kw = "i32.const" then
      match ← Parser.consume with
      | some (.int s b d) => do
        let v ← liftExcept (parse_i32 s b d)
        pure (Const.i32 v)
      | x => Parser.unexpected_token x "i32 value"
    else if kw = "i64.const" then
      match ← Parser.consume with
      | some (.int s b d) => do
        let v ← liftExcept (parse_i64 s b d)
        pure (Const.i64 v)
      | x => Parser.unexpected_token x "i64 value"
    else if kw = "f32.const" then
      match ← Parser.consume with
      | some (.keyword "nan:canonical") => pure Const.canonicalNan
      | some (.keyword "nan:arithmetic") => pure Const.arithmeticNan
      | some (.int s b d) => do
        let v ← liftExcept (parse_i64 s b d)
        pure (Const.f32 (.num (v : ℚ)))
      | some (.float s (.nan _)) => pure (Const.f32 (s.applyFVal (.nan false)))
      | some (.float .plus .inf) => pure (Const.f32 .inf)
      | some (.float .minus .inf) => pure (Const.f32 .negInf)
      | some (.float s (.val b frac exp)) => do
        let q ← liftExcept (parse_f32 s b frac exp)
        pure (Const.f32 (.num q))
      | x => Parser.unexpected_token x "f32 value"
    else if kw = "f64.const" then
      match ← Parser.consume with
      | some (.keyword "nan:canonical") => pure Const.canonicalNan
      | some (.keyword "nan:arithmetic") => pure Const.arithmeticNan
      | some (.int s b d) => do
        let v ← liftExcept (parse_i64 s b d)
        pure (Const.f64 (.num (v : ℚ)))
      | some (.float s (.nan _)) => pure (Const.f64 (s.applyFVal (.nan false)))
      | some (.float .plus .inf) => pure (Const.f64 .inf)
      | some (.float .minus .inf) => pure (Const.f64 .negInf)
      | some (.float s (.val b frac exp)) => do
        let q ← liftExcept (parse_f64 s b frac exp)
        pure (Const.f64 (.num q))
      | x => Parser.unexpected_token x "f64 value"
    else Parser.unexpected "t.const for constant"
  expectRParen
  pure c

/-- The constant-argument loop of Invoke::parse, driven by a fuel
counter (each iteration consumes at least one token; the wrapper passes
enough fuel): while the next token is '(', parse a constant. -/
def argsLoop : Nat → List Const → PM (List Const)
  | 0, _ => Parser.fail .loopFuel
  | fuel + 1, acc => do
    let (t1, _) ← Parser.peek
    match t1 with
    | some .lparen => do
      let c ← Const.parse
      argsLoop fuel (acc ++ [c])
    | _ => pure acc

/-- Invoke::parse: '(invoke', an optional identifier, the export name,
the constant arguments, then ')'. -/
def Invoke.parse : PM Invoke := do
  Parser.parse_start "invoke"
  let id ← Parser.parse_maybe_id
  let name ← parseString
  let args ← fun st => argsLoop (st.toks.length + 1) [] st
  expectRParen
  pure ⟨id, name, args⟩

/-- Register::parse: '(register', the name, an optional identifier,
then ')'. -/
def Register.parse : PM Register := do
  Parser.parse_start "register"
  let name ← parseString
  let id ← Parser.parse_maybe_id
  expectRParen
  pure ⟨name, id⟩

/-- GetGlobal::parse: '(get', an optional identifier, the name,
then ')'. -/
def GetGlobal.parse : PM GetGlobal := do
  Parser.parse_start "get"
  let id ← Parser.parse_maybe_id
  let name ← parseString
  expectRParen
  pure ⟨id, name⟩

/-- AssertReturn::parse: '(assert_return', then either an invoke with an
optional expected constant, or a get with a required expected constant,
then ')'. -/
def AssertReturn.parse : PM AssertReturn := do
  Parser.parse_start "assert_return"
  let (t1, t2) ← Parser.peek
  match t1, t2 with
  | some .lparen, some (.keyword "invoke") => do
    let inv ← Invoke.parse
    let (u1, _) ← Parser.peek
    let expected ←
      (match u1 with
       | some .lparen => do
         let c ← Const.parse
         Pure.pure (some c)
       | _ => pure none)
    expectRParen
    pure (.invokeAct inv expected)
  | some .lparen, some (.keyword "get") => do
    let g ← GetGlobal.parse
    let c ← Const.parse
    expectRParen
    pure (.globalAct g c)
  | some .lparen, t => Parser.unexpected_token t "invoke or get for assert_return"
  | t, _ => Parser.unexpected_token t "invoke or get for assert_return"

/-- AssertTrap::parse. -/
def AssertTrap.parse : PM AssertTrap := do
  Parser.parse_start "assert_trap"
  let inv ← Invoke.parse
  let expected ← parseString
  expectRParen
  pure ⟨inv, expected⟩

/-- AssertMalformed::parse. -/
def AssertMalformed.parse : PM AssertMalformed := do
  Parser.parse_start "assert_malformed"
  let m ← EmbeddedModule.parse
  let expected ← parseString
  expectRParen
  pure ⟨m, expected⟩

/-- The Parse impl for an inline module (ast::Root): require the stream
to start with '(module', then loan the buffer to the external module
compiler and take it back (with_lexer). A compiler error propagates via
the conversion of spec-test/src/error.rs (outside Parser::error) while
the buffer was moved out, so the error-site state has an empty stream. -/
def inlineModuleParse {M : Type} (compile : Compile M) : PM M := fun st =>
  match st.toks.head?, st.toks.tail.head? with
  | some .lparen, some (.keyword "module") =>
    (match compile.run st.toks with
     | .ok (m, toks2) => .ok (m, { st with toks := toks2 })
     | .error ce => .error (convertWatError ce, { st with toks := [] }))
  | some .lparen, t =>
    .error (Parser.error st (.unexpected "starting with (module for module argument" t))
  | t, _ =>
    .error (Parser.error st (.unexpected "starting with (module for module argument" t))

/-- AssertInvalid::parse. -/
def AssertInvalid.parse {M : Type} (compile : Compile M) : PM (AssertInvalid M) := do
  Parser.parse_start "assert_invalid"
  let wat ← inlineModuleParse compile
  let expected ← parseString
  expectRParen
  pure ⟨wat, expected⟩

/-- AssertUnlinkable::parse. -/
def AssertUnlinkable.parse {M : Type} (compile : Compile M) : PM (AssertUnlinkable M) := do
  Parser.parse_start "assert_unlinkable"
  let wat ← inlineModuleParse compile
  let expected ← parseString
  expectRParen
  pure ⟨wat, expected⟩

/-- AssertExhaustion::parse. -/
def AssertExhaustion.parse : PM AssertExhaustion := do
  Parser.parse_start "assert_exhaustion"
  let inv ← Invoke.parse
  let expected ← parseString
  expectRParen
  pure ⟨inv, expected⟩

/-- The module arm of Directive::parse: remember the lexer (the token
stream before the attempt), try EmbeddedModule::parse; on success the
directive is the quote or binary module; on failure store the discarded
error in the ignored_error slot and re-parse from the remembered stream
as an inline module through the external compiler. -/
def moduleArm {M : Type} (compile : Compile M) : PM (Directive M) := fun st =>
  match EmbeddedModule.parse st with
  | .ok (m, st2) =>
    match m.embedded with
    | .quote text => .ok (.quoteModule text, st2)
    | .binary bin => .ok (.binaryModule bin, st2)
  | .error (e, stE) =>
    match compile.run st.toks with
    | .ok (m, toks2) => .ok (.inlineModule m, { toks := toks2, ignoredError := some e })
    | .error ce => .error (convertWatError ce, { toks := stE.toks, ignoredError := some e })

/-- Directive::parse: dispatch on the two-token lookahead ('(' plus the
leading keyword) without consuming, then delegate to the per-keyword
rule; the module keyword goes to the speculative module arm. -/
def Directive.parse {M : Type} (compile : Compile M) : PM (Directive M) := do
  let (t1, t2) ← Parser.peek
  (match t1 with
   | some .lparen => pure ()
   | t => Parser.unexpected_token t "( for start of WAST directive")
  match t2 with
  | some (.keyword "assert_return") => do
    let a ← AssertReturn.parse
    pure (Directive.assertReturn a)
  | some (.keyword "assert_trap") => do
    let a ← AssertTrap.parse
    pure (Directive.assertTrap a)
  | some (.keyword "assert_malformed") => do
    let a ← AssertMalformed.parse
    pure (Directive.assertMalformed a)
  | some (.keyword "assert_invalid") => do
    let a ← AssertInvalid.parse compile
    pure (Directive.assertInvalid a)
  | some (.keyword "assert_unlinkable") => do
    let a ← AssertUnlinkable.parse compile
    pure (Directive.assertUnlinkable a)
  | some (.keyword "assert_exhaustion") => do
    let a ← AssertExhaustion.parse
    pure (Directive.assertExhaustion a)
  | some (.keyword "register") => do
    let r ← Register.parse
    pure (Directive.register r)
  | some (.keyword "invoke") => do
    let i ← Invoke.parse
    pure (Directive.invoke i)
  | some (.keyword "module") => moduleArm compile
  | t => Parser.unexpected_token t "keyword for WAST directive"

/-- The Root::parse loop, driven by a fuel counter (each iteration
consumes tokens; the wrapper passes enough fuel): while the stream is
not exhausted, parse the next directive and append it. -/
def rootLoop {M : Type} (compile : Compile M) :
    Nat → List (Directive M) → PM (List (Directive M))
  | 0, _ => Parser.fail .loopFuel
  | fuel + 1, acc => do
    let (t1, _) ← Parser.peek
    match t1 with
    | none => pure acc
    | some _ => do
      let d ← Directive.parse compile
      rootLoop compile fuel (acc ++ [d])

/-- Root::parse: collect directives until the end of input; all or
nothing, in source order. -/
def Root.parse {M : Type} (compile : Compile M) : PM (Root M) := fun st =>
  match rootLoop compile (st.toks.length + 1) [] st with
  | .ok (ds, st2) => .ok (⟨ds⟩, st2)
  | .error e => .error e

/-- The directive built from a successfully parsed embedded module
(the two success branches of the module arm of Directive::parse). -/
def embeddedDirective {M : Type} : EmbeddedModule → Directive M
  | ⟨.quote text⟩ => .quoteModule text
  | ⟨.binary bin⟩ => .binaryModule bin

/-- A module-compiler behavior that rejects every module (a legitimate
instance of the bridge interface, used to exercise the error paths). -/
def failCompile : Compile Nat where
  run := fun _ => .error 7
  consumes := by intro toks m toks2 h; exact absurd h (by simp)

/-- A module-compiler behavior that accepts every nonempty stream and
consumes exactly one token (a legitimate instance of the bridge
interface, used to exercise the success paths). -/
def dropCompile : Compile Nat where
  run := fun toks =>
    match toks with
    | [] => .error 0
    | _ :: rest => .ok (0, rest)
  consumes := by
    intro toks m toks2 h
    cases toks with
    | nil => exact absurd h (by simp)
    | cons t rest =>
      simp only [Except.ok.injEq, Prod.mk.injEq] at h
      obtain ⟨-, h2⟩ := h
      subst h2
      exact ⟨List.suffix_cons t rest, by simp⟩

/-- One run of the Root loop, decomposed: the token stream splits into
consecutive chunks, each of which Directive::parse turns into the
corresponding directive, in source order, threading the parser state. -/
inductive DirSeq {M : Type} (compile : Compile M) :
    PState → List (List Tok × Directive M) → PState → Prop where
  | done : ∀ st, st.toks = [] → DirSeq compile st [] st
  | step : ∀ st chunk d st1 l st2,
      Directive.parse compile st = .ok (d, st1) →
      st.toks = chunk ++ st1.toks →
      DirSeq compile st1 l st2 →
      DirSeq compile st ((chunk, d) :: l) st2

/-- Well-behavedness of a parser computation: on success the remaining
tokens are a suffix of the input tokens (the parser only consumes), and
on failure the raised error has a prior-error chain of at most one
level. -/
def PMGood {α : Type} (m : PM α) : Prop :=
  (∀ st a st2, m st = .ok (a, st2) → st2.toks.IsSuffix st.toks) ∧
  (∀ st e st2, m st = .error (e, st2) → e.depth ≤ 1)

/-! ## Escape-decoder lemmas -/

/-- The text after the closing brace of a Unicode escape is strictly
shorter than the scanned text. -/
theorem splitAtBrace_length : ∀ {cs inner rest : List Char},
    splitAtBrace cs = some (inner, rest) → rest.length < cs.length := by
  intro cs
  induction cs with
  | nil => intro inner rest h; simp [splitAtBrace] at h
  | cons c cs ih =>
    intro inner rest h
    rw [splitAtBrace] at h
    split at h
    · simp only [Option.some.injEq, Prod.mk.injEq] at h
      obtain ⟨-, h2⟩ := h
      subst h2
      simp
    · simp only [Option.map_eq_some'] at h
      obtain ⟨⟨i2, r2⟩, hsp, heq⟩ := h
      simp only [Prod.mk.injEq] at heq
      obtain ⟨-, h2⟩ := heq
      subst h2
      have := ih hsp
      simp only [List.length_cons]
      omega

/-- Every iteration of the escape-decoding loop consumes at least one
character. -/
theorem escStep_progress : ∀ {cs : List Char} {bs : List Nat} {rest : List Char},
    escStep cs = .ok (some (bs, rest)) → rest.length < cs.length := by
  intro cs bs rest h
  unfold escStep at h
  repeat' split at h
  all_goals try simp at h
  all_goals try (obtain ⟨-, h2⟩ := h; subst h2; simp only [List.length_cons]; omega)
  all_goals
    (obtain ⟨-, h2⟩ := h
     rw [← h2]
     have hlen := splitAtBrace_length (show splitAtBrace _ = some (_, _) from by assumption)
     simp only [List.length_cons]
     omega)

/-- The escape-decoding loop does not depend on its fuel once the fuel
exceeds the number of characters. -/
theorem escapeGo_mono : ∀ (f g : Nat) (cs : List Char), cs.length < f → cs.length < g →
    escapeGo f cs = escapeGo g cs := by
  intro f
  induction f using Nat.strong_induction_on with
  | _ f ih =>
    intro g cs hf hg
    cases f with
    | zero => omega
    | succ f2 =>
      cases g with
      | zero => omega
      | succ g2 =>
        rw [escapeGo, escapeGo]
        cases hs : escStep cs with
        | error e => rfl
        | ok o =>
          cases o with
          | none => rfl
          | some p =>
            obtain ⟨bs, rest⟩ := p
            have hp := escStep_progress hs
            have heq : escapeGo f2 rest = escapeGo g2 rest :=
              ih f2 (Nat.lt_succ_self f2) g2 rest (by omega) (by omega)
            simp only [heq]

/-! ## Well-behavedness: the parser only consumes tokens, and every
error it raises has a prior-error chain of at most one level -/

/-- Running a bound computation. -/
theorem PM.run_bind {α β : Type} (m : PM α) (f : α → PM β) (st : PState) :
    (m >>= f) st =
      match m st with
      | .ok (a, st2) => f a st2
      | .error e => .error e := rfl

/-- Running a pure computation. -/
theorem PM.run_pure {α : Type} (a : α) (st : PState) :
    (Pure.pure (f := PM) a) st = .ok (a, st) := rfl

/-- Every error built by Parser::error has a chain of at most one level:
the attached ignored error has its own link cleared first. -/
theorem Parser.error_depth (st : PState) (k : ErrKind) :
    (Parser.error st k).1.depth ≤ 1 := by
  unfold Parser.error
  cases st.ignoredError <;> simp [PError.depth]

/-- pure is well behaved. -/
theorem pure_good {α : Type} (a : α) : PMGood (Pure.pure (f := PM) a) := by
  constructor
  · intro st b st2 h
    rw [PM.run_pure] at h
    cases h
    exact List.suffix_rfl
  · intro st e st2 h
    rw [PM.run_pure] at h
    cases h

/-- bind is well behaved when both sides are. -/
theorem bind_good {α β : Type} {m : PM α} {f : α → PM β}
    (hm : PMGood m) (hf : ∀ a, PMGood (f a)) : PMGood (m >>= f) := by
  constructor
  · intro st a st2 h
    rw [PM.run_bind] at h
    cases hmst : m st with
    | ok p =>
      obtain ⟨b, st1⟩ := p
      rw [hmst] at h
      exact ((hf b).1 st1 a st2 h).trans (hm.1 st b st1 hmst)
    | error e2 =>
      rw [hmst] at h
      cases h
  · intro st e st2 h
    rw [PM.run_bind] at h
    cases hmst : m st with
    | ok p =>
      obtain ⟨b, st1⟩ := p
      rw [hmst] at h
      exact (hf b).2 st1 e st2 h
    | error e2 =>
      obtain ⟨e2e, e2st⟩ := e2
      rw [hmst] at h
      cases h
      exact hm.2 st _ _ hmst

/-- A successful bind factors through a success of its first component. -/
theorem bind_ok_first {α β : Type} {m : PM α} {f : α → PM β} {st : PState}
    {b : β} {st2 : PState} (h : (m >>= f) st = .ok (b, st2)) :
    ∃ a st1, m st = .ok (a, st1) ∧ f a st1 = .ok (b, st2) := by
  rw [PM.run_bind] at h
  cases hmst : m st with
  | ok p =>
    obtain ⟨a, st1⟩ := p
    rw [hmst] at h
    exact ⟨a, st1, rfl, h⟩
  | error e2 =>
    rw [hmst] at h
    cases h

/-- Parser::fail is well behaved. -/
theorem fail_good {α : Type} (k : ErrKind) : PMGood (Parser.fail (α := α) k) := by
  constructor
  · intro st a st2 h
    cases h
  · intro st e st2 h
    unfold Parser.fail at h
    have := Parser.error_depth st k
    cases hpe : Parser.error st k with
    | mk e2 st3 =>
      rw [hpe] at h this
      cases h
      exact this

/-- Parser::unexpected is well behaved. -/
theorem unexpected_good {α : Type} (s : String) : PMGood (Parser.unexpected (α := α) s) :=
  fail_good _

/-- Parser::unexpected_token is well behaved. -/
theorem unexpected_token_good {α : Type} (t : Option Tok) (s : String) :
    PMGood (Parser.unexpected_token (α := α) t s) :=
  fail_good _

/-- Parser::consume is well behaved. -/
theorem consume_good : PMGood Parser.consume := by
  constructor
  · intro st a st2 h
    unfold Parser.consume at h
    cases htoks : st.toks with
    | nil =>
      rw [htoks] at h
      cases h
      rw [htoks]
    | cons t rest =>
      rw [htoks] at h
      cases h
      exact List.suffix_cons t rest
  · intro st e st2 h
    unfold Parser.consume at h
    cases htoks : st.toks with
    | nil => rw [htoks] at h; cases h
    | cons t rest => rw [htoks] at h; cases h

/-- Parser::peek is well behaved. -/
theorem peek_good : PMGood Parser.peek := by
  constructor
  · intro st a st2 h
    cases h
    exact List.suffix_rfl
  · intro st e st2 h
    cases h

/-- liftExcept is well behaved. -/
theorem liftExcept_good {α : Type} (r : Except ErrKind α) : PMGood (liftExcept r) := by
  cases r with
  | ok a =>
    constructor
    · intro st b st2 h
      cases h
      exact List.suffix_rfl
    · intro st e st2 h
      cases h
  | error k => exact fail_good k

/-- Parser::parse_escaped is well behaved. -/
theorem parse_escaped_good (s : List Char) : PMGood (Parser.parse_escaped s) := by
  constructor
  · intro st a st2 h
    unfold Parser.parse_escaped at h
    split at h
    · cases h
      exact List.suffix_rfl
    · cases h
  · intro st e st2 h
    unfold Parser.parse_escaped at h
    split at h
    · cases h
    next reason heq =>
      have hd := Parser.error_depth st (.invalidStringLiteral s reason)
      cases hpe : Parser.error st (.invalidStringLiteral s reason) with
      | mk e2 st3 =>
        rw [hpe] at h hd
        cases h
        exact hd

/-- Parser::parse_escaped_text is well behaved. -/
theorem parse_escaped_text_good (s : List Char) : PMGood (Parser.parse_escaped_text s) := by
  unfold Parser.parse_escaped_text
  refine bind_good (parse_escaped_good s) ?_
  intro bs
  cases utf8Decode? bs with
  | some t => exact pure_good t
  | none => exact fail_good _

/-- The String parse rule is well behaved. -/
theorem parseString_good : PMGood parseString := by
  unfold parseString
  refine bind_good consume_good ?_
  intro a
  match a with
  | some .lparen => exact unexpected_token_good _ _
  | some .rparen => exact unexpected_token_good _ _
  | some (.keyword k) => exact unexpected_token_good _ _
  | some (.ident i) => exact unexpected_token_good _ _
  | some (.str s) => exact parse_escaped_text_good s
  | some (.int s b d) => exact unexpected_token_good _ _
  | some (.float s f) => exact unexpected_token_good _ _
  | none => exact unexpected_token_good _ _

/-- expectRParen is well behaved. -/
theorem expectRParen_good : PMGood expectRParen := by
  unfold expectRParen
  refine bind_good consume_good ?_
  intro a
  match a with
  | some .lparen => exact unexpected_token_good _ _
  | some .rparen => exact pure_good ()
  | some (.keyword k) => exact unexpected_token_good _ _
  | some (.ident i) => exact unexpected_token_good _ _
  | some (.str s) => exact unexpected_token_good _ _
  | some (.int s b d) => exact unexpected_token_good _ _
  | some (.float s f) => exact unexpected_token_good _ _
  | none => exact unexpected_token_good _ _

/-- Parser::parse_start is well behaved. -/
theorem parse_start_good (d : String) : PMGood (Parser.parse_start d) := by
  unfold Parser.parse_start
  refine bind_good consume_good ?_
  intro a
  match a with
  | some .lparen =>
    refine bind_good consume_good ?_
    intro b
    match b with
    | some .lparen => exact unexpected_token_good _ _
    | some .rparen => exact unexpected_token_good _ _
    | some (.keyword k) =>
      dsimp only
      split
      · exact pure_good ()
      · exact unexpected_token_good _ _
    | some (.ident i) => exact unexpected_token_good _ _
    | some (.str s) => exact unexpected_token_good _ _
    | some (.int s b d) => exact unexpected_token_good _ _
    | some (.float s f) => exact unexpected_token_good _ _
    | none => exact unexpected_token_good _ _
  | some .rparen => exact unexpected_token_good _ _
  | some (.keyword k) => exact unexpected_token_good _ _
  | some (.ident i) => exact unexpected_token_good _ _
  | some (.str s) => exact unexpected_token_good _ _
  | some (.int s b d) => exact unexpected_token_good _ _
  | some (.float s f) => exact unexpected_token_good _ _
  | none => exact unexpected_token_good _ _

/-- Parser::parse_maybe_id is well behaved. -/
theorem parse_maybe_id_good : PMGood Parser.parse_maybe_id := by
  unfold Parser.parse_maybe_id
  refine bind_good peek_good ?_
  intro a
  obtain ⟨t1, t2⟩ := a
  match t1 with
  | some .lparen => exact pure_good _
  | some .rparen => exact pure_good _
  | some (.keyword k) => exact pure_good _
  | some (.ident i) =>
    exact bind_good consume_good (fun _ => pure_good _)
  | some (.str s) => exact pure_good _
  | some (.int s b d) => exact pure_good _
  | some (.float s f) => exact pure_good _
  | none => exact pure_good _

/-- An error raised as Parser::error has bounded depth, read off an
equation between Except values. -/
theorem perror_eq_depth {α : Type} {st : PState} {k : ErrKind} {e : PError} {st2 : PState}
    (h : (.error (Parser.error st k) : Except (PError × PState) (α × PState)) =
      .error (e, st2)) :
    e.depth ≤ 1 := by
  have hd := Parser.error_depth st k
  cases hpe : Parser.error st k with
  | mk e2 st3 =>
    rw [hpe] at h hd
    cases h
    exact hd

/-- The quote-payload loop is well behaved. -/
theorem quoteLoop_good : ∀ (toks : List Tok) (acc : List Char) (ig : Option PError),
    (∀ a st2, quoteLoop acc ig toks = .ok (a, st2) → st2.toks.IsSuffix toks) ∧
    (∀ e st2, quoteLoop acc ig toks = .error (e, st2) → e.depth ≤ 1) := by
  intro toks
  induction toks with
  | nil =>
    intro acc ig
    constructor
    · intro a st2 h
      rw [quoteLoop] at h
      cases h
    · intro e st2 h
      rw [quoteLoop] at h
      exact perror_eq_depth h
  | cons t rest ih =>
    intro acc ig
    cases t with
    | str s =>
      constructor
      · intro a st2 h
        rw [quoteLoop] at h
        split at h
        · cases h
        · split at h
          · cases h
          · exact ((ih _ ig).1 a st2 h).trans (List.suffix_cons _ _)
      · intro e st2 h
        rw [quoteLoop] at h
        split at h
        · exact perror_eq_depth h
        · split at h
          · exact perror_eq_depth h
          · exact (ih _ ig).2 e st2 h
    | rparen =>
      constructor
      · intro a st2 h
        rw [quoteLoop] at h
        cases h
        exact List.suffix_cons _ _
      · intro e st2 h
        rw [quoteLoop] at h
        cases h
    | lparen =>
      constructor
      · intro a st2 h
        rw [quoteLoop] at h
        · cases h
        all_goals simp
      · intro e st2 h
        rw [quoteLoop] at h
        · exact perror_eq_depth h
        all_goals simp
    | keyword k =>
      constructor
      · intro a st2 h
        rw [quoteLoop] at h
        · cases h
        all_goals simp
      · intro e st2 h
        rw [quoteLoop] at h
        · exact perror_eq_depth h
        all_goals simp
    | ident i =>
      constructor
      · intro a st2 h
        rw [quoteLoop] at h
        · cases h
        all_goals simp
      · intro e st2 h
        rw [quoteLoop] at h
        · exact perror_eq_depth h
        all_goals simp
    | int s b d =>
      constructor
      · intro a st2 h
        rw [quoteLoop] at h
        · cases h
        all_goals simp
      · intro e st2 h
        rw [quoteLoop] at h
        · exact perror_eq_depth h
        all_goals simp
    | float s f =>
      constructor
      · intro a st2 h
        rw [quoteLoop] at h
        · cases h
        all_goals simp
      · intro e st2 h
        rw [quoteLoop] at h
        · exact perror_eq_depth h
        all_goals simp

/-- The binary-payload loop is well behaved. -/
theorem binaryLoop_good : ∀ (toks : List Tok) (acc : List Nat) (ig : Option PError),
    (∀ a st2, binaryLoop acc ig toks = .ok (a, st2) → st2.toks.IsSuffix toks) ∧
    (∀ e st2, binaryLoop acc ig toks = .error (e, st2) → e.depth ≤ 1) := by
  intro toks
  induction toks with
  | nil =>
    intro acc ig
    constructor
    · intro a st2 h
      rw [binaryLoop] at h
      cases h
    · intro e st2 h
      rw [binaryLoop] at h
      exact perror_eq_depth h
  | cons t rest ih =>
    intro acc ig
    cases t with
    | str s =>
      constructor
      · intro a st2 h
        rw [binaryLoop] at h
        split at h
        · cases h
        · exact ((ih _ ig).1 a st2 h).trans (List.suffix_cons _ _)
      · intro e st2 h
        rw [binaryLoop] at h
        split at h
        · exact perror_eq_depth h
        · exact (ih _ ig).2 e st2 h
    | rparen =>
      constructor
      · intro a st2 h
        rw [binaryLoop] at h
        cases h
        exact List.suffix_cons _ _
      · intro e st2 h
        rw [binaryLoop] at h
        cases h
    | lparen =>
      constructor
      · intro a st2 h
        rw [binaryLoop] at h
        · cases h
        all_goals simp
      · intro e st2 h
        rw [binaryLoop] at h
        · exact perror_eq_depth h
        all_goals simp
    | keyword k =>
      constructor
      · intro a st2 h
        rw [binaryLoop] at h
        · cases h
        all_goals simp
      · intro e st2 h
        rw [binaryLoop] at h
        · exact perror_eq_depth h
        all_goals simp
    | ident i =>
      constructor
      · intro a st2 h
        rw [binaryLoop] at h
        · cases h
        all_goals simp
      · intro e st2 h
        rw [binaryLoop] at h
        · exact perror_eq_depth h
        all_goals simp
    | int s b d =>
      constructor
      · intro a st2 h
        rw [binaryLoop] at h
        · cases h
        all_goals simp
      · intro e st2 h
        rw [binaryLoop] at h
        · exact perror_eq_depth h
        all_goals simp
    | float s f =>
      constructor
      · intro a st2 h
        rw [binaryLoop] at h
        · cases h
        all_goals simp
      · intro e st2 h
        rw [binaryLoop] at h
        · exact perror_eq_depth h
        all_goals simp

/-- EmbeddedModule::parse is well behaved. -/
theorem embeddedModule_parse_good : PMGood EmbeddedModule.parse := by
  unfold EmbeddedModule.parse
  refine bind_good (parse_start_good _) ?_
  intro _
  refine bind_good peek_good ?_
  intro a
  obtain ⟨t1, t2⟩ := a
  refine bind_good ?_ ?_
  · match t1 with
    | some .lparen => exact pure_good ()
    | some .rparen => exact pure_good ()
    | some (.keyword k) => exact pure_good ()
    | some (.ident i) => exact bind_good consume_good fun _ => pure_good ()
    | some (.str s) => exact pure_good ()
    | some (.int s b d) => exact pure_good ()
    | some (.float s f) => exact pure_good ()
    | none => exact pure_good ()
  · intro _
    refine bind_good consume_good ?_
    intro b
    match b with
    | some .lparen => exact unexpected_token_good _ _
    | some .rparen => exact unexpected_token_good _ _
    | some (.keyword kw) =>
      dsimp only
      split
      · refine bind_good ?_ fun text => pure_good _
        exact ⟨fun st a st2 h => (quoteLoop_good st.toks [] st.ignoredError).1 a st2 h,
          fun st e st2 h => (quoteLoop_good st.toks [] st.ignoredError).2 e st2 h⟩
      · split
        · refine bind_good ?_ fun bin => pure_good _
          exact ⟨fun st a st2 h => (binaryLoop_good st.toks [] st.ignoredError).1 a st2 h,
            fun st e st2 h => (binaryLoop_good st.toks [] st.ignoredError).2 e st2 h⟩
        · exact unexpected_token_good _ _
    | some (.ident i) => exact unexpected_token_good _ _
    | some (.str s) => exact unexpected_token_good _ _
    | some (.int s b d) => exact unexpected_token_good _ _
    | some (.float s f) => exact unexpected_token_good _ _
    | none => exact unexpected_token_good _ _

/-- Const::parse is well behaved. -/
theorem const_parse_good : PMGood Const.parse := by
  unfold Const.parse
  refine bind_good consume_good ?_
  intro a
  refine bind_good ?_ ?_
  · match a with
    | some .lparen => exact pure_good ()
    | some .rparen => exact unexpected_token_good _ _
    | some (.keyword k) => exact unexpected_token_good _ _
    | some (.ident i) => exact unexpected_token_good _ _
    | some (.str s) => exact unexpected_token_good _ _
    | some (.int s b d) => exact unexpected_token_good _ _
    | some (.float s f) => exact unexpected_token_good _ _
    | none => exact unexpected_token_good _ _
  · intro _
    refine bind_good consume_good ?_
    intro b
    refine bind_good ?_ ?_
    · match b with
      | some .lparen => exact unexpected_token_good _ _
      | some .rparen => exact unexpected_token_good _ _
      | some (.keyword k) => exact pure_good k
      | some (.ident i) => exact unexpected_token_good _ _
      | some (.str s) => exact unexpected_token_good _ _
      | some (.int s b d) => exact unexpected_token_good _ _
      | some (.float s f) => exact unexpected_token_good _ _
      | none => exact unexpected_token_good _ _
    · intro kw
      dsimp only
      split
      · -- i32.const
        refine bind_good consume_good ?_
        intro c
        match c with
        | some (.int s b d) =>
          exact bind_good (liftExcept_good _) fun v => bind_good (pure_good _) fun y =>
            bind_good expectRParen_good fun _ => pure_good _
        | some .lparen =>
          exact bind_good (unexpected_token_good _ _) fun y =>
            bind_good expectRParen_good fun _ => pure_good _
        | some .rparen =>
          exact bind_good (unexpected_token_good _ _) fun y =>
            bind_good expectRParen_good fun _ => pure_good _
        | some (.keyword k) =>
          exact bind_good (unexpected_token_good _ _) fun y =>
            bind_good expectRParen_good fun _ => pure_good _
        | some (.ident i) =>
          exact bind_good (unexpected_token_good _ _) fun y =>
            bind_good expectRParen_good fun _ => pure_good _
        | some (.str s) =>
          exact bind_good (unexpected_token_good _ _) fun y =>
            bind_good expectRParen_good fun _ => pure_good _
        | some (.float s f) =>
          exact bind_good (unexpected_token_good _ _) fun y =>
            bind_good expectRParen_good fun _ => pure_good _
        | none =>
          exact bind_good (unexpected_token_good _ _) fun y =>
            bind_good expectRParen_good fun _ => pure_good _
      · split
        · -- i64.const
          refine bind_good consume_good ?_
          intro c
          match c with
          | some (.int s b d) =>
            exact bind_good (liftExcept_good _) fun v => bind_good (pure_good _) fun y =>
              bind_good expectRParen_good fun _ => pure_good _
          | some .lparen =>
            exact bind_good (unexpected_token_good _ _) fun y =>
              bind_good expectRParen_good fun _ => pure_good _
          | some .rparen =>
            exact bind_good (unexpected_token_good _ _) fun y =>
              bind_good expectRParen_good fun _ => pure_good _
          | some (.keyword k) =>
            exact bind_good (unexpected_token_good _ _) fun y =>
              bind_good expectRParen_good fun _ => pure_good _
          | some (.ident i) =>
            exact bind_good (unexpected_token_good _ _) fun y =>
              bind_good expectRParen_good fun _ => pure_good _
          | some (.str s) =>
            exact bind_good (unexpected_token_good _ _) fun y =>
              bind_good expectRParen_good fun _ => pure_good _
          | some (.float s f) =>
            exact bind_good (unexpected_token_good _ _) fun y =>
              bind_good expectRParen_good fun _ => pure_good _
          | none =>
            exact bind_good (unexpected_token_good _ _) fun y =>
              bind_good expectRParen_good fun _ => pure_good _
        · split
          · -- f32.const
            refine bind_good consume_good ?_
            intro c
            match c with
            | some (.keyword k) =>
              split
              · exact bind_good (pure_good _) fun y =>
                  bind_good expectRParen_good fun _ => pure_good _
              · exact bind_good (pure_good _) fun y =>
                  bind_good expectRParen_good fun _ => pure_good _
              all_goals try (rename_i heq; simp at heq)
              all_goals
                exact bind_good (unexpected_token_good _ _) fun y =>
                  bind_good expectRParen_good fun _ => pure_good _
            | some (.int s b d) =>
              exact bind_good (liftExcept_good _) fun v => bind_good (pure_good _) fun y =>
                bind_good expectRParen_good fun _ => pure_good _
            | some (.float .plus (.nan p)) =>
              exact bind_good (pure_good _) fun y =>
                bind_good expectRParen_good fun _ => pure_good _
            | some (.float .minus (.nan p)) =>
              exact bind_good (pure_good _) fun y =>
                bind_good expectRParen_good fun _ => pure_good _
            | some (.float .plus .inf) =>
              exact bind_good (pure_good _) fun y =>
                bind_good expectRParen_good fun _ => pure_good _
            | some (.float .minus .inf) =>
              exact bind_good (pure_good _) fun y =>
                bind_good expectRParen_good fun _ => pure_good _
            | some (.float .plus (.val b frac exp)) =>
              exact bind_good (liftExcept_good _) fun q => bind_good (pure_good _) fun y =>
                bind_good expectRParen_good fun _ => pure_good _
            | some (.float .minus (.val b frac exp)) =>
              exact bind_good (liftExcept_good _) fun q => bind_good (pure_good _) fun y =>
                bind_good expectRParen_good fun _ => pure_good _
            | some .lparen =>
              exact bind_good (unexpected_token_good _ _) fun y =>
                bind_good expectRParen_good fun _ => pure_good _
            | some .rparen =>
              exact bind_good (unexpected_token_good _ _) fun y =>
                bind_good expectRParen_good fun _ => pure_good _
            | some (.ident i) =>
              exact bind_good (unexpected_token_good _ _) fun y =>
                bind_good expectRParen_good fun _ => pure_good _
            | some (.str s) =>
              exact bind_good (unexpected_token_good _ _) fun y =>
                bind_good expectRParen_good fun _ => pure_good _
            | none =>
              exact bind_good (unexpected_token_good _ _) fun y =>
                bind_good expectRParen_good fun _ => pure_good _
          · split
            · -- f64.const
              refine bind_good consume_good ?_
              intro c
              match c with
              | some (.keyword k) =>
                split
                · exact bind_good (pure_good _) fun y =>
                    bind_good expectRParen_good fun _ => pure_good _
                · exact bind_good (pure_good _) fun y =>
                    bind_good expectRParen_good fun _ => pure_good _
                all_goals try (rename_i heq; simp at heq)
                all_goals
                  exact bind_good (unexpected_token_good _ _) fun y =>
                    bind_good expectRParen_good fun _ => pure_good _
              | some (.int s b d) =>
                exact bind_good (liftExcept_good _) fun v => bind_good (pure_good _) fun y =>
                  bind_good expectRParen_good fun _ => pure_good _
              | some (.float .plus (.nan p)) =>
                exact bind_good (pure_good _) fun y =>
                  bind_good expectRParen_good fun _ => pure_good _
              | some (.float .minus (.nan p)) =>
                exact bind_good (pure_good _) fun y =>
                  bind_good expectRParen_good fun _ => pure_good _
              | some (.float .plus .inf) =>
                exact bind_good (pure_good _) fun y =>
                  bind_good expectRParen_good fun _ => pure_good _
              | some (.float .minus .inf) =>
                exact bind_good (pure_good _) fun y =>
                  bind_good expectRParen_good fun _ => pure_good _
              | some (.float .plus (.val b frac exp)) =>
                exact bind_good (liftExcept_good _) fun q => bind_good (pure_good _) fun y =>
                  bind_good expectRParen_good fun _ => pure_good _
              | some (.float .minus (.val b frac exp)) =>
                exact bind_good (liftExcept_good _) fun q => bind_good (pure_good _) fun y =>
                  bind_good expectRParen_good fun _ => pure_good _
              | some .lparen =>
                exact bind_good (unexpected_token_good _ _) fun y =>
                  bind_good expectRParen_good fun _ => pure_good _
              | some .rparen =>
                exact bind_good (unexpected_token_good _ _) fun y =>
                  bind_good expectRParen_good fun _ => pure_good _
              | some (.ident i) =>
                exact bind_good (unexpected_token_good _ _) fun y =>
                  bind_good expectRParen_good fun _ => pure_good _
              | some (.str s) =>
                exact bind_good (unexpected_token_good _ _) fun y =>
                  bind_good expectRParen_good fun _ => pure_good _
              | none =>
                exact bind_good (unexpected_token_good _ _) fun y =>
                  bind_good expectRParen_good fun _ => pure_good _
            · exact bind_good (unexpected_good _) fun y =>
                bind_good expectRParen_good fun _ => pure_good _

/-- The constant-argument loop is well behaved. -/
theorem argsLoop_good : ∀ (fuel : Nat) (acc : List Const), PMGood (argsLoop fuel acc) := by
  intro fuel
  induction fuel with
  | zero => intro acc; exact fail_good _
  | succ f ih =>
    intro acc
    rw [argsLoop]
    refine bind_good peek_good ?_
    intro a
    obtain ⟨t1, t2⟩ := a
    match t1 with
    | some .lparen => exact bind_good const_parse_good fun c => ih _
    | some .rparen => exact pure_good _
    | some (.keyword k) => exact pure_good _
    | some (.ident i) => exact pure_good _
    | some (.str s) => exact pure_good _
    | some (.int s b d) => exact pure_good _
    | some (.float s f) => exact pure_good _
    | none => exact pure_good _

/-- Invoke::parse is well behaved. -/
theorem invoke_parse_good : PMGood Invoke.parse := by
  unfold Invoke.parse
  refine bind_good (parse_start_good _) ?_
  intro _
  refine bind_good parse_maybe_id_good ?_
  intro id
  refine bind_good parseString_good ?_
  intro name
  refine bind_good ?_ ?_
  · exact ⟨fun st a st2 h => (argsLoop_good _ _).1 st a st2 h,
      fun st e st2 h => (argsLoop_good _ _).2 st e st2 h⟩
  · intro args
    exact bind_good expectRParen_good fun _ => pure_good _

/-- Register::parse is well behaved. -/
theorem register_parse_good : PMGood Register.parse := by
  unfold Register.parse
  refine bind_good (parse_start_good _) ?_
  intro _
  refine bind_good parseString_good ?_
  intro name
  refine bind_good parse_maybe_id_good ?_
  intro id
  exact bind_good expectRParen_good fun _ => pure_good _

/-- GetGlobal::parse is well behaved. -/
theorem getGlobal_parse_good : PMGood GetGlobal.parse := by
  unfold GetGlobal.parse
  refine bind_good (parse_start_good _) ?_
  intro _
  refine bind_good parse_maybe_id_good ?_
  intro id
  refine bind_good parseString_good ?_
  intro name
  exact bind_good expectRParen_good fun _ => pure_good _

/-- AssertReturn::parse is well behaved. -/
theorem assertReturn_parse_good : PMGood AssertReturn.parse := by
  unfold AssertReturn.parse
  refine bind_good (parse_start_good _) ?_
  intro _
  refine bind_good peek_good ?_
  intro a
  obtain ⟨t1, t2⟩ := a
  dsimp only
  split
  · -- invoke arm
    refine bind_good invoke_parse_good ?_
    intro inv
    refine bind_good peek_good ?_
    intro u
    obtain ⟨u1, u2⟩ := u
    refine bind_good ?_ ?_
    · match u1 with
      | some .lparen => exact bind_good const_parse_good fun c => pure_good _
      | some .rparen => exact pure_good _
      | some (.keyword k) => exact pure_good _
      | some (.ident i) => exact pure_good _
      | some (.str s) => exact pure_good _
      | some (.int s b d) => exact pure_good _
      | some (.float s f) => exact pure_good _
      | none => exact pure_good _
    · intro expected
      exact bind_good expectRParen_good fun _ => pure_good _
  · -- get arm
    refine bind_good getGlobal_parse_good ?_
    intro g
    refine bind_good const_parse_good ?_
    intro c
    exact bind_good expectRParen_good fun _ => pure_good _
  · exact unexpected_token_good _ _
  · exact unexpected_token_good _ _

/-- AssertTrap::parse is well behaved. -/
theorem assertTrap_parse_good : PMGood AssertTrap.parse := by
  unfold AssertTrap.parse
  refine bind_good (parse_start_good _) ?_
  intro _
  refine bind_good invoke_parse_good ?_
  intro inv
  refine bind_good parseString_good ?_
  intro expected
  exact bind_good expectRParen_good fun _ => pure_good _

/-- AssertMalformed::parse is well behaved. -/
theorem assertMalformed_parse_good : PMGood AssertMalformed.parse := by
  unfold AssertMalformed.parse
  refine bind_good (parse_start_good _) ?_
  intro _
  refine bind_good embeddedModule_parse_good ?_
  intro m
  refine bind_good parseString_good ?_
  intro expected
  exact bind_good expectRParen_good fun _ => pure_good _

/-- The inline-module rule is well behaved (using the interface contract
of the external compiler for the loaned buffer). -/
theorem inlineModuleParse_good {M : Type} (compile : Compile M) :
    PMGood (inlineModuleParse compile) := by
  constructor
  · intro st a st2 h
    unfold inlineModuleParse at h
    split at h
    · split at h
      next m toks2 hcomp =>
        cases h
        exact (compile.consumes st.toks _ _ hcomp).1
      next ce hcomp => cases h
    · cases h
    · cases h
  · intro st e st2 h
    unfold inlineModuleParse at h
    split at h
    · split at h
      next m toks2 hcomp => cases h
      next ce hcomp =>
        cases h
        simp [convertWatError, PError.depth]
    · exact perror_eq_depth h
    · exact perror_eq_depth h

/-- AssertInvalid::parse is well behaved. -/
theorem assertInvalid_parse_good {M : Type} (compile : Compile M) :
    PMGood (AssertInvalid.parse compile) := by
  unfold AssertInvalid.parse
  refine bind_good (parse_start_good _) ?_
  intro _
  refine bind_good (inlineModuleParse_good compile) ?_
  intro wat
  refine bind_good parseString_good ?_
  intro expected
  exact bind_good expectRParen_good fun _ => pure_good _

/-- AssertUnlinkable::parse is well behaved. -/
theorem assertUnlinkable_parse_good {M : Type} (compile : Compile M) :
    PMGood (AssertUnlinkable.parse compile) := by
  unfold AssertUnlinkable.parse
  refine bind_good (parse_start_good _) ?_
  intro _
  refine bind_good (inlineModuleParse_good compile) ?_
  intro wat
  refine bind_good parseString_good ?_
  intro expected
  exact bind_good expectRParen_good fun _ => pure_good _

/-- AssertExhaustion::parse is well behaved. -/
theorem assertExhaustion_parse_good : PMGood AssertExhaustion.parse := by
  unfold AssertExhaustion.parse
  refine bind_good (parse_start_good _) ?_
  intro _
  refine bind_good invoke_parse_good ?_
  intro inv
  refine bind_good parseString_good ?_
  intro expected
  exact bind_good expectRParen_good fun _ => pure_good _

/-- The speculative module arm is well behaved. -/
theorem moduleArm_good {M : Type} (compile : Compile M) : PMGood (moduleArm compile) := by
  constructor
  · intro st a st2 h
    unfold moduleArm at h
    split at h
    next m stE hemb =>
      split at h <;> (cases h; exact embeddedModule_parse_good.1 st _ _ hemb)
    next e stE hemb =>
      split at h
      next m toks2 hcomp =>
        cases h
        exact (compile.consumes st.toks _ _ hcomp).1
      next ce hcomp => cases h
  · intro st e st2 h
    unfold moduleArm at h
    split at h
    next m stE hemb =>
      split at h <;> cases h
    next e2 stE hemb =>
      split at h
      next m toks2 hcomp => cases h
      next ce hcomp =>
        cases h
        simp [convertWatError, PError.depth]

set_option maxHeartbeats 1000000 in
/-- Directive::parse is well behaved. -/
theorem directive_parse_good {M : Type} (compile : Compile M) :
    PMGood (Directive.parse compile) := by
  unfold Directive.parse
  refine bind_good peek_good ?_
  intro a
  obtain ⟨t1, t2⟩ := a
  refine bind_good ?_ ?_
  · match t1 with
    | some .lparen => exact pure_good ()
    | some .rparen => exact unexpected_token_good _ _
    | some (.keyword k) => exact unexpected_token_good _ _
    | some (.ident i) => exact unexpected_token_good _ _
    | some (.str s) => exact unexpected_token_good _ _
    | some (.int s b d) => exact unexpected_token_good _ _
    | some (.float s f) => exact unexpected_token_good _ _
    | none => exact unexpected_token_good _ _
  · intro _
    dsimp only
    split
    · exact bind_good assertReturn_parse_good fun x => pure_good _
    · exact bind_good assertTrap_parse_good fun x => pure_good _
    · exact bind_good assertMalformed_parse_good fun x => pure_good _
    · exact bind_good (assertInvalid_parse_good compile) fun x => pure_good _
    · exact bind_good (assertUnlinkable_parse_good compile) fun x => pure_good _
    · exact bind_good assertExhaustion_parse_good fun x => pure_good _
    · exact bind_good register_parse_good fun x => pure_good _
    · exact bind_good invoke_parse_good fun x => pure_good _
    · exact moduleArm_good compile
    · exact unexpected_token_good _ _

/-- The Root::parse loop is well behaved. -/
theorem rootLoop_good {M : Type} (compile : Compile M) :
    ∀ (fuel : Nat) (acc : List (Directive M)), PMGood (rootLoop compile fuel acc) := by
  intro fuel
  induction fuel with
  | zero => intro acc; exact fail_good _
  | succ f ih =>
    intro acc
    rw [rootLoop]
    refine bind_good peek_good ?_
    intro a
    obtain ⟨t1, t2⟩ := a
    match t1 with
    | none => exact pure_good _
    | some t => exact bind_good (directive_parse_good compile) fun d => ih _

/-- Root::parse is well behaved: the parser only consumes tokens, and on
failure the single returned error has a prior-error chain of at most one
level. -/
theorem root_parse_good {M : Type} (compile : Compile M) : PMGood (Root.parse compile) := by
  constructor
  · intro st a st2 h
    unfold Root.parse at h
    split at h
    next ds st3 heq =>
      cases h
      exact (rootLoop_good compile _ _).1 st _ _ heq
    next e2 heq => cases h
  · intro st e st2 h
    unfold Root.parse at h
    split at h
    next ds st3 heq => cases h
    next e2 heq =>
      obtain ⟨e2e, e2st⟩ := e2
      cases h
      exact (rootLoop_good compile _ _).2 st _ _ heq

/-! ## Shape lemmas: what a successful rule reveals about its input -/

/-- Running Parser::parse_start on a well-formed head. -/
theorem parse_start_run (d : String) (rest : List Tok) (ig : Option PError) :
    Parser.parse_start d ⟨.lparen :: .keyword d :: rest, ig⟩ = .ok ((), ⟨rest, ig⟩) := by
  simp [Parser.parse_start, PM.run_bind, PM.run_pure, Parser.consume]

/-- A successful Parser::parse_start means the input began with an
opening parenthesis and the directive keyword, both consumed. -/
theorem parse_start_ok_shape {d : String} {st : PState} {a : Unit} {st2 : PState}
    (h : Parser.parse_start d st = .ok (a, st2)) :
    st.toks = .lparen :: .keyword d :: st2.toks ∧ st2.ignoredError = st.ignoredError := by
  obtain ⟨toks, ig⟩ := st
  cases toks with
  | nil =>
    simp [Parser.parse_start, PM.run_bind, Parser.consume, Parser.unexpected_token,
      Parser.fail, Parser.error] at h
  | cons t rest =>
    cases t <;>
      try simp [Parser.parse_start, PM.run_bind, Parser.consume, Parser.unexpected_token,
        Parser.fail, Parser.error] at h
    case lparen =>
      cases rest with
      | nil =>
        simp [Parser.parse_start, PM.run_bind, Parser.consume, Parser.unexpected_token,
          Parser.fail, Parser.error] at h
      | cons t2 rest2 =>
        cases t2 <;>
          try simp [Parser.parse_start, PM.run_bind, Parser.consume, Parser.unexpected_token,
            Parser.fail, Parser.error] at h
        case keyword k =>
          by_cases hk : k = d
          · subst hk
            simp [PM.run_pure] at h
            first
              | (obtain ⟨-, h2⟩ := h; subst h2; exact ⟨rfl, rfl⟩)
              | (subst h; exact ⟨rfl, rfl⟩)
              | (obtain ⟨h2, -⟩ := h; subst h2; exact ⟨rfl, rfl⟩)
          · simp [hk, Parser.fail, Parser.error] at h

/-- A successful EmbeddedModule::parse means the input began with
'(module'. -/
theorem embedded_ok_shape {st : PState} {m : EmbeddedModule} {st2 : PState}
    (h : EmbeddedModule.parse st = .ok (m, st2)) :
    ∃ rest, st.toks = .lparen :: .keyword "module" :: rest := by
  unfold EmbeddedModule.parse at h
  obtain ⟨u, st1, h1, -⟩ := bind_ok_first h
  exact ⟨st1.toks, (parse_start_ok_shape h1).1⟩

/-- A successful Invoke::parse means the input began with '(invoke'. -/
theorem invoke_ok_shape {st : PState} {inv : Invoke} {st2 : PState}
    (h : Invoke.parse st = .ok (inv, st2)) :
    ∃ rest, st.toks = .lparen :: .keyword "invoke" :: rest := by
  unfold Invoke.parse at h
  obtain ⟨u, st1, h1, -⟩ := bind_ok_first h
  exact ⟨st1.toks, (parse_start_ok_shape h1).1⟩

/-- On a stream that begins with '(module', Directive::parse dispatches
to the speculative module arm. -/
theorem directive_parse_module_arm {M : Type} (compile : Compile M) (st : PState)
    (rest : List Tok) (h : st.toks = .lparen :: .keyword "module" :: rest) :
    Directive.parse compile st = moduleArm compile st := by
  obtain ⟨toks, ig⟩ := st
  simp only at h
  subst h
  rfl

/-! ## Claim theorems -/

/-- A value accepted by the unsigned parser fits the width. -/
theorem parseUnsigned_lt {base : NumBase} {w : Nat} {cs : List Char} {u : Nat}
    (h : parseUnsigned base w cs = some u) : u < 2 ^ w := by
  unfold parseUnsigned at h
  split at h
  · split at h
    · cases h
      assumption
    · cases h
  · cases h

/-- toSigned is the two's-complement reinterpretation: it is congruent
to the unsigned value modulo 2 to the width and lies in the signed
range. -/
theorem toSigned_spec (w u : Nat) (hu : u < 2 ^ w) (hw : 0 < w) :
    ((2 : ℤ) ^ w ∣ toSigned w u - (u : ℤ)) ∧
    -((2 : ℤ) ^ (w - 1)) ≤ toSigned w u ∧ toSigned w u < 2 ^ (w - 1) := by
  have h2 : (2 : ℤ) ^ w = 2 * 2 ^ (w - 1) := by
    conv_lhs => rw [show w = (w - 1) + 1 by omega]
    rw [pow_succ]
    ring
  have hx : (0 : ℤ) < 2 ^ (w - 1) := by positivity
  have hu2 : (u : ℤ) < 2 ^ w := by exact_mod_cast hu
  unfold toSigned
  split
  next hlt =>
    have hlt2 : (u : ℤ) < 2 ^ (w - 1) := by exact_mod_cast hlt
    have hnn : (0 : ℤ) ≤ u := Int.ofNat_nonneg u
    exact ⟨⟨0, by ring⟩, by linarith, hlt2⟩
  next hge =>
    have hge2 : (2 : ℤ) ^ (w - 1) ≤ u := by
      have := Nat.le_of_not_lt hge
      exact_mod_cast this
    exact ⟨⟨-1, by ring⟩, by linarith, by linarith⟩

/-- C1: integer constant decoding (for i32.const and i64.const operands)
obeys the two's-complement wraparound rule: for every digit string that
parses as an unsigned integer u of the target width, a positive sign
yields u reinterpreted as the signed value of that width (congruent to u
modulo 2 to the width, within the signed range); a negative sign with
magnitude exactly signed-max plus one yields signed-min; a negative sign
with magnitude at most signed-max yields the ordinary negation; a
negative sign with any larger magnitude fails with the too-small range
error; and a digit string that does not parse as an unsigned integer of
the target width fails with the distinct invalid-integer error. -/
theorem C1_integer_wraparound :
    ∀ (w : Nat) (ty : String), (w = 32 ∧ ty = "i32") ∨ (w = 64 ∧ ty = "i64") →
    ∀ (base : NumBase) (digits : List Char),
      (∀ u, parseUnsigned base w (digits.filter (fun c => c ≠ '_')) = some u →
        (parse_int_fn w ty .plus base digits = .ok (toSigned w u) ∧
          ((2 : ℤ) ^ w ∣ toSigned w u - (u : ℤ)) ∧
          -((2 : ℤ) ^ (w - 1)) ≤ toSigned w u ∧ toSigned w u < 2 ^ (w - 1)) ∧
        (u = 2 ^ (w - 1) →
          parse_int_fn w ty .minus base digits = .ok (-((2 : ℤ) ^ (w - 1)))) ∧
        (u ≤ 2 ^ (w - 1) - 1 →
          parse_int_fn w ty .minus base digits = .ok (-(u : ℤ))) ∧
        (2 ^ (w - 1) < u →
          parse_int_fn w ty .minus base digits = .error (.tooSmallInt ty u))) ∧
      (parseUnsigned base w (digits.filter (fun c => c ≠ '_')) = none →
        ∀ sign, parse_int_fn w ty sign base digits = .error (.invalidInt ty)) ∧
      (∀ u, ErrKind.invalidInt ty ≠ ErrKind.tooSmallInt ty u) := by
  intro w ty hwt base digits
  have hw : 0 < w := by rcases hwt with ⟨rfl, -⟩ | ⟨rfl, -⟩ <;> norm_num
  have hp : 0 < 2 ^ (w - 1) := Nat.pos_pow_of_pos _ (by norm_num)
  refine ⟨?_, ?_, ?_⟩
  · intro u hu
    have hs := toSigned_spec w u (parseUnsigned_lt hu) hw
    refine ⟨⟨by unfold parse_int_fn; rw [hu], hs.1, hs.2.1, hs.2.2⟩, ?_, ?_, ?_⟩
    · intro hmin
      unfold parse_int_fn
      rw [hu]
      simp [hmin]
    · intro hle
      have hne : u ≠ 2 ^ (w - 1) :=
        Nat.ne_of_lt (Nat.lt_of_le_of_lt hle (Nat.sub_lt hp Nat.one_pos))
      unfold parse_int_fn
      rw [hu]
      simp [hne, hle]
    · intro hgt
      have hne : u ≠ 2 ^ (w - 1) := Nat.ne_of_gt hgt
      have hnle : ¬u ≤ 2 ^ (w - 1) - 1 := by
        intro hc
        have h1 : u < 2 ^ (w - 1) := Nat.lt_of_le_of_lt hc (Nat.sub_lt hp Nat.one_pos)
        exact Nat.lt_irrefl _ (Nat.lt_trans h1 hgt)
      unfold parse_int_fn
      rw [hu]
      simp [hne, hnle]
  · intro hnone sign
    cases sign <;> (unfold parse_int_fn; rw [hnone])
  · intro u
    simp

/-- Witness for C1: the 32-bit decimal literal 4294967295 (unsigned max)
decodes with a plus sign to the reinterpreted value, which is minus
one. -/
theorem C1_integer_wraparound_witness :
    parse_i32 .plus .dec "4294967295".data = .ok (toSigned 32 4294967295) ∧
    toSigned 32 4294967295 = -1 ∧
    parse_i64 .minus .hex "8000000000000000".data = .ok (-((2 : ℤ) ^ 63)) := by
  have h32 := C1_integer_wraparound 32 "i32" (Or.inl ⟨rfl, rfl⟩) .dec ("4294967295".data)
  have h64 := C1_integer_wraparound 64 "i64" (Or.inr ⟨rfl, rfl⟩) .hex ("8000000000000000".data)
  have hu32 : parseUnsigned .dec 32 (("4294967295".data).filter (fun c => c ≠ '_')) =
      some 4294967295 := by decide
  have hu64 : parseUnsigned .hex 64 (("8000000000000000".data).filter (fun c => c ≠ '_')) =
      some 9223372036854775808 := by decide
  refine ⟨((h32.1 4294967295 hu32).1).1, by decide, ?_⟩
  have := ((h64.1 9223372036854775808 hu64).2).1 (by norm_num)
  exact this

/-- C8: hexadecimal float decoding follows the documented algorithm
exactly: before the radix point the mantissa accumulates as value times
16 plus digit, after it as value plus digit over a step growing by 16,
separator underscores are ignored, a p-exponent multiplies the value by
2 to the (possibly negated) exponent, and the overall sign is applied
last; in particular the 32-bit literal 0x12.34p2 decodes to 72.8125 and
0x12.34p-2 to 4.55078125. -/
theorem C8_hex_float_algorithm :
    (∀ (f : ℚ) (c : Char) (u : Nat) (cs : List Char), toDigitHex c = some u →
      hexMantLoop1 f (c :: cs) = hexMantLoop1 (f * 16 + (u : ℚ)) cs) ∧
    (∀ (f : ℚ) (cs : List Char), hexMantLoop1 f ('.' :: cs) = hexMantLoop2 f 16 cs) ∧
    (∀ (f : ℚ) (cs : List Char), hexMantLoop1 f ('_' :: cs) = hexMantLoop1 f cs) ∧
    (∀ (f step : ℚ) (c : Char) (u : Nat) (cs : List Char), toDigitHex c = some u →
      hexMantLoop2 f step (c :: cs) = hexMantLoop2 (f + (u : ℚ) / step) (step * 16) cs) ∧
    (∀ (f step : ℚ) (cs : List Char), hexMantLoop2 f step ('_' :: cs) = hexMantLoop2 f step cs) ∧
    (∀ (ty : String) (frac ds : List Char) (es : Sign) (f : ℚ) (n : Nat),
      hexMantLoop1 0 frac = some f →
      digitsVal? .dec (ds.filter (fun c => c ≠ '_')) = some n →
      n ≤ 2 ^ 31 - 1 →
      ∀ sign, parse_float_fn ty sign .hex frac (some (es, ds)) =
        .ok (sign.applyRat (f * (2 : ℚ) ^ (Sign.applyInt es (n : ℤ))))) ∧
    (∀ (ty : String) (sign : Sign) (base : NumBase) (frac : List Char)
      (exp : Option (Sign × List Char)),
      parse_float_fn ty sign base frac exp =
        Except.map sign.applyRat (parse_float_fn ty .plus base frac exp)) ∧
    parse_f32 .plus .hex ['1','2','.','3','4'] (some (.plus, ['2'])) = .ok 72.8125 ∧
    parse_f32 .plus .hex ['1','2','.','3','4'] (some (.minus, ['2'])) = .ok 4.55078125 := by
  refine ⟨?_, ?_, ?_, ?_, ?_, ?_, ?_, ?_, ?_⟩
  · intro f c u cs h
    simp [hexMantLoop1, h]
  · intro f cs
    simp [hexMantLoop1, show toDigitHex '.' = none from by decide]
  · intro f cs
    simp +decide [hexMantLoop1, show toDigitHex '_' = none from by decide]
  · intro f step c u cs h
    simp [hexMantLoop2, h]
  · intro f step cs
    simp +decide [hexMantLoop2, show toDigitHex '_' = none from by decide]
  · intro ty frac ds es f n hf hn hle sign
    unfold parse_float_fn
    rw [hf]
    dsimp only
    rw [hn]
    simp [hle]
    omega
  · intro ty sign base frac exp
    unfold parse_float_fn
    cases base <;> dsimp only <;> (repeat' split) <;> cases sign <;>
      simp_all [Sign.applyRat, Except.map]
  · simp +decide [parse_f32, parse_float_fn, hexMantLoop1, hexMantLoop2, toDigitHex,
      toDigitDec, digitsVal?, digitsValAux, NumBase.digit?, NumBase.radix, Sign.applyRat,
      Sign.applyInt]
    norm_num
  · simp +decide [parse_f32, parse_float_fn, hexMantLoop1, hexMantLoop2, toDigitHex,
      toDigitDec, digitsVal?, digitsValAux, NumBase.digit?, NumBase.radix, Sign.applyRat,
      Sign.applyInt]
    norm_num

/-- Witness for C8: the digit and exponent rules applied at concrete
inputs. -/
theorem C8_hex_float_algorithm_witness :
    (toDigitHex 'a' = some 10 ∧
      hexMantLoop1 0 ['a'] = hexMantLoop1 (0 * 16 + ((10 : Nat) : ℚ)) []) ∧
    (hexMantLoop1 0 ['1'] = some (0 * 16 + ((1 : Nat) : ℚ)) ∧
      digitsVal? .dec (['2'].filter (fun c => c ≠ '_')) = some 2 ∧
      2 ≤ 2 ^ 31 - 1 ∧
      parse_float_fn "f32" .plus .hex ['1'] (some (.plus, ['2'])) =
        .ok (Sign.applyRat .plus
          ((0 * 16 + ((1 : Nat) : ℚ)) * (2 : ℚ) ^ (Sign.applyInt .plus ((2 : Nat) : ℤ))))) := by
  refine ⟨⟨by decide, C8_hex_float_algorithm.1 0 'a' 10 [] (by decide)⟩,
    rfl, by decide, by decide, ?_⟩
  exact C8_hex_float_algorithm.2.2.2.2.2.1 "f32" ['1'] ['2'] .plus _ 2 rfl (by decide)
    (by decide) .plus

/-- C7: NaN classing of float constants: the operands nan:canonical and
nan:arithmetic always decode to the two distinct marker variants (never
to a numeric float value), while a NaN float token — bare, signed, or
with an explicit payload — always decodes to a numeric float constant of
the keyword's width whose value is some NaN, independently of the
payload. -/
theorem C7_nan_classing :
    (∀ (rest : List Tok) (ig : Option PError),
      Const.parse
          ⟨.lparen :: .keyword "f32.const" :: .keyword "nan:canonical" :: .rparen :: rest, ig⟩ =
        .ok (Const.canonicalNan, ⟨rest, ig⟩) ∧
      Const.parse
          ⟨.lparen :: .keyword "f32.const" :: .keyword "nan:arithmetic" :: .rparen :: rest, ig⟩ =
        .ok (Const.arithmeticNan, ⟨rest, ig⟩) ∧
      Const.parse
          ⟨.lparen :: .keyword "f64.const" :: .keyword "nan:canonical" :: .rparen :: rest, ig⟩ =
        .ok (Const.canonicalNan, ⟨rest, ig⟩) ∧
      Const.parse
          ⟨.lparen :: .keyword "f64.const" :: .keyword "nan:arithmetic" :: .rparen :: rest, ig⟩ =
        .ok (Const.arithmeticNan, ⟨rest, ig⟩)) ∧
    (∀ (s : Sign) (payload : Option (List Char)) (rest : List Tok) (ig : Option PError),
      Const.parse
          ⟨.lparen :: .keyword "f32.const" :: .float s (.nan payload) :: .rparen :: rest, ig⟩ =
        .ok (Const.f32 (s.applyFVal (.nan false)), ⟨rest, ig⟩) ∧
      Const.parse
          ⟨.lparen :: .keyword "f64.const" :: .float s (.nan payload) :: .rparen :: rest, ig⟩ =
        .ok (Const.f64 (s.applyFVal (.nan false)), ⟨rest, ig⟩) ∧
      (s.applyFVal (.nan false)).isNaN = true) ∧
    (Const.canonicalNan ≠ Const.arithmeticNan ∧
      ∀ v, Const.canonicalNan ≠ Const.f32 v ∧ Const.canonicalNan ≠ Const.f64 v ∧
        Const.arithmeticNan ≠ Const.f32 v ∧ Const.arithmeticNan ≠ Const.f64 v) := by
  refine ⟨?_, ?_, ?_⟩
  · intro rest ig
    refine ⟨?_, ?_, ?_, ?_⟩ <;>
      simp +decide [Const.parse, PM.run_bind, PM.run_pure, Parser.consume, expectRParen]
  · intro s payload rest ig
    refine ⟨?_, ?_, ?_⟩ <;> cases s <;>
      simp +decide [Const.parse, PM.run_bind, PM.run_pure, Parser.consume, expectRParen,
        Sign.applyFVal, FVal.isNaN]
  · exact ⟨by decide, fun v => by refine ⟨?_, ?_, ?_, ?_⟩ <;> intro h <;> cases h⟩

/-- C10: for every f32.const or f64.const whose operand is an integer
token, the parser decodes the literal with the 64-bit signed integer
decoder (i64 range and wraparound) and converts the signed result to the
float value; an integer operand of f32.const may use the full 64-bit
unsigned range (0xffffffffffffffff decodes to the f32 value -1), a
literal outside the 64-bit unsigned range is rejected with an i64-typed
error even for the 32-bit float keyword, and the i32 range is never
consulted. -/
theorem C10_float_int_operand_uses_i64 :
    (∀ (s : Sign) (b : NumBase) (d : List Char) (v : ℤ) (rest : List Tok)
      (ig : Option PError), parse_i64 s b d = .ok v →
      Const.parse ⟨.lparen :: .keyword "f32.const" :: .int s b d :: .rparen :: rest, ig⟩ =
        .ok (Const.f32 (.num (v : ℚ)), ⟨rest, ig⟩) ∧
      Const.parse ⟨.lparen :: .keyword "f64.const" :: .int s b d :: .rparen :: rest, ig⟩ =
        .ok (Const.f64 (.num (v : ℚ)), ⟨rest, ig⟩)) ∧
    (∀ (s : Sign) (b : NumBase) (d : List Char) (k : ErrKind) (rest : List Tok)
      (ig : Option PError), parse_i64 s b d = .error k →
      Const.parse ⟨.lparen :: .keyword "f32.const" :: .int s b d :: rest, ig⟩ =
        .error (Parser.error ⟨rest, ig⟩ k) ∧
      Const.parse ⟨.lparen :: .keyword "f64.const" :: .int s b d :: rest, ig⟩ =
        .error (Parser.error ⟨rest, ig⟩ k)) ∧
    (∀ (s : Sign) (b : NumBase) (d : List Char) (k : ErrKind),
      parse_i64 s b d = .error k →
      k = .invalidInt "i64" ∨ ∃ u, k = .tooSmallInt "i64" u) ∧
    Const.parse ⟨[.lparen, .keyword "f32.const",
        .int .plus .hex "ffffffffffffffff".data, .rparen], none⟩ =
      .ok (Const.f32 (.num (-1)), ⟨[], none⟩) ∧
    Const.parse ⟨[.lparen, .keyword "f32.const",
        .int .plus .hex "10000000000000000".data, .rparen], none⟩ =
      .error (.mk0 (.invalidInt "i64"), ⟨[.rparen], none⟩) := by
  have ha : ∀ (s : Sign) (b : NumBase) (d : List Char) (v : ℤ) (rest : List Tok)
      (ig : Option PError), parse_i64 s b d = .ok v →
      Const.parse ⟨.lparen :: .keyword "f32.const" :: .int s b d :: .rparen :: rest, ig⟩ =
        .ok (Const.f32 (.num (v : ℚ)), ⟨rest, ig⟩) ∧
      Const.parse ⟨.lparen :: .keyword "f64.const" :: .int s b d :: .rparen :: rest, ig⟩ =
        .ok (Const.f64 (.num (v : ℚ)), ⟨rest, ig⟩) := by
    intro s b d v rest ig h
    constructor <;>
      simp +decide [Const.parse, PM.run_bind, PM.run_pure, Parser.consume, expectRParen,
        liftExcept, h]
  have hb : ∀ (s : Sign) (b : NumBase) (d : List Char) (k : ErrKind) (rest : List Tok)
      (ig : Option PError), parse_i64 s b d = .error k →
      Const.parse ⟨.lparen :: .keyword "f32.const" :: .int s b d :: rest, ig⟩ =
        .error (Parser.error ⟨rest, ig⟩ k) ∧
      Const.parse ⟨.lparen :: .keyword "f64.const" :: .int s b d :: rest, ig⟩ =
        .error (Parser.error ⟨rest, ig⟩ k) := by
    intro s b d k rest ig h
    constructor <;>
      simp +decide [Const.parse, PM.run_bind, PM.run_pure, Parser.consume, expectRParen,
        liftExcept, Parser.fail, h]
  refine ⟨ha, hb, ?_, ?_, ?_⟩
  · intro s b d k h
    unfold parse_i64 parse_int_fn at h
    cases s <;> split at h
    · cases h
      exact Or.inl rfl
    · cases h
    · cases h
      exact Or.inl rfl
    · split_ifs at h <;> cases h <;> exact Or.inr ⟨_, rfl⟩
  · have h1 := (ha .plus .hex "ffffffffffffffff".data (-1) [] none (by decide)).1
    simpa using h1
  · have h2 := (hb .plus .hex "10000000000000000".data (.invalidInt "i64") [.rparen] none
      (by decide)).1
    simpa [Parser.error] using h2

/-- Witness for C10: the general rules applied at the concrete literal
0xffffffffffffffff for both float widths. -/
theorem C10_float_int_operand_uses_i64_witness :
    Const.parse ⟨[.lparen, .keyword "f64.const",
        .int .plus .hex "ffffffffffffffff".data, .rparen], none⟩ =
      .ok (Const.f64 (.num ((-1 : ℤ) : ℚ)), ⟨[], none⟩) ∧
    (ErrKind.invalidInt "i64" = .invalidInt "i64" ∨
      ∃ u, ErrKind.invalidInt "i64" = .tooSmallInt "i64" u) := by
  exact ⟨(C10_float_int_operand_uses_i64.1 .plus .hex "ffffffffffffffff".data (-1) [] none
      (by decide)).2,
    C10_float_int_operand_uses_i64.2.2.1 .plus .hex "10000000000000000".data _ (by decide)⟩

/-- Decoding a recognized single-character escape prepends its fixed
byte and continues on the remaining text. -/
theorem escapeBytes_step (e : Char) (b : List Nat)
    (hstep : ∀ cs, escStep ('\\' :: e :: cs) = .ok (some (b, cs))) (cs : List Char) :
    escapeBytes ('\\' :: e :: cs) = Except.map (fun bs => b ++ bs) (escapeBytes cs) := by
  unfold escapeBytes
  rw [show ('\\' :: e :: cs).length + 1 = (cs.length + 2) + 1 from by simp]
  rw [escapeGo, hstep cs]
  dsimp only
  rw [escapeGo_mono (cs.length + 2) (cs.length + 1) cs (by omega) (by omega)]

/-- Decoding a two-character escape prepends its byte and continues on
the remaining text. -/
theorem escapeBytes_step2 (c1 c2 : Char) (b : List Nat)
    (hstep : ∀ cs, escStep ('\\' :: c1 :: c2 :: cs) = .ok (some (b, cs))) (cs : List Char) :
    escapeBytes ('\\' :: c1 :: c2 :: cs) = Except.map (fun bs => b ++ bs) (escapeBytes cs) := by
  unfold escapeBytes
  rw [show ('\\' :: c1 :: c2 :: cs).length + 1 = (cs.length + 3) + 1 from by simp]
  rw [escapeGo, hstep cs]
  dsimp only
  rw [escapeGo_mono (cs.length + 3) (cs.length + 1) cs (by omega) (by omega)]

/-- The escape step on a backslash followed by two hex digits yields
exactly the raw byte of the two digits. -/
theorem escStep_hex {c1 c2 : Char} {hi lo : Nat} (h1 : toDigitHex c1 = some hi)
    (h2 : toDigitHex c2 = some lo) (cs : List Char) :
    escStep ('\\' :: c1 :: c2 :: cs) = .ok (some ([hi * 16 + lo], cs)) := by
  simp only [escStep]
  rw [if_neg (by simp)]
  split
  all_goals try ((rename_i heq; cases heq) <;> (simp +decide [toDigitHex] at h1; done))
  rename_i heq2
  cases heq2
  simp [h1, h2]

/-- C9: escape decoding of binary-module string payloads is byte-exact:
each recognized single-character escape maps to its fixed byte, a
two-hex-digit escape yields exactly that raw byte, consecutive string
tokens' decoded bytes are concatenated in order, and the two strings of
the binary module header decode and concatenate to exactly the 8 bytes
00 61 73 6D 01 00 00 00. -/
theorem C9_escape_decoding :
    (∀ cs, escapeBytes ('\\' :: 't' :: cs) = Except.map (fun bs => 9 :: bs) (escapeBytes cs)) ∧
    (∀ cs, escapeBytes ('\\' :: 'n' :: cs) = Except.map (fun bs => 10 :: bs) (escapeBytes cs)) ∧
    (∀ cs, escapeBytes ('\\' :: 'r' :: cs) = Except.map (fun bs => 13 :: bs) (escapeBytes cs)) ∧
    (∀ cs, escapeBytes ('\\' :: '"' :: cs) = Except.map (fun bs => 34 :: bs) (escapeBytes cs)) ∧
    (∀ cs, escapeBytes ('\\' :: '\'' :: cs) = Except.map (fun bs => 39 :: bs) (escapeBytes cs)) ∧
    (∀ cs, escapeBytes ('\\' :: '\\' :: cs) = Except.map (fun bs => 92 :: bs) (escapeBytes cs)) ∧
    (∀ (c1 c2 : Char) (hi lo : Nat) (cs : List Char),
      toDigitHex c1 = some hi → toDigitHex c2 = some lo →
      escapeBytes ('\\' :: c1 :: c2 :: cs) =
        Except.map (fun bs => (hi * 16 + lo) :: bs) (escapeBytes cs)) ∧
    (∀ (s : List Char) (bs acc : List Nat) (ig : Option PError) (rest : List Tok),
      escapeBytes s = .ok bs →
      binaryLoop acc ig (.str s :: rest) = binaryLoop (acc ++ bs) ig rest) ∧
    (∀ (acc : List Nat) (ig : Option PError) (rest : List Tok),
      binaryLoop acc ig (.rparen :: rest) = .ok (acc, ⟨rest, ig⟩)) ∧
    EmbeddedModule.parse ⟨[.lparen, .keyword "module", .keyword "binary",
        .str "\\00asm".data, .str "\\01\\00\\00\\00".data, .rparen], none⟩ =
      .ok (⟨.binary [0, 97, 115, 109, 1, 0, 0, 0]⟩, ⟨[], none⟩) := by
  refine ⟨escapeBytes_step 't' [9] fun cs => rfl, escapeBytes_step 'n' [10] fun cs => rfl,
    escapeBytes_step 'r' [13] fun cs => rfl, escapeBytes_step '"' [34] fun cs => rfl,
    escapeBytes_step '\'' [39] fun cs => rfl, escapeBytes_step '\\' [92] fun cs => rfl,
    ?_, ?_, ?_, ?_⟩
  · intro c1 c2 hi lo cs h1 h2
    exact escapeBytes_step2 c1 c2 [hi * 16 + lo] (escStep_hex h1 h2) cs
  · intro s bs acc ig rest hs
    rw [binaryLoop, hs]
  · intro acc ig rest
    rw [binaryLoop]
  · decide

/-- Witness for C9: the two-hex-digit escape rule and the concatenation
rule applied at concrete inputs. -/
theorem C9_escape_decoding_witness :
    escapeBytes ['\\', '0', '0'] =
      Except.map (fun bs => (0 * 16 + 0) :: bs) (escapeBytes []) ∧
    binaryLoop [] none [.str ['a'], .rparen] = binaryLoop ([] ++ [97]) none [.rparen] := by
  exact ⟨C9_escape_decoding.2.2.2.2.2.2.1 '0' '0' 0 0 [] (by decide) (by decide),
    C9_escape_decoding.2.2.2.2.2.2.2.1 ['a'] [97] [] none [.rparen] (by decide)⟩

/-- Counterexample to C6 as stated: on the register directive
(register $m "n") — keyword, identifier, then quoted name — the parser
fails with an unexpected-token error instead of accepting the identifier
between the keyword and the name. -/
theorem C6_counterexample :
    Register.parse ⟨[.lparen, .keyword "register", .ident "$m", .str ['n'], .rparen], none⟩ =
      .error (.mk0 (.unexpected "Token String" (some (.ident "$m"))),
        ⟨[.str ['n'], .rparen], none⟩) := by
  decide

/-- C6 (amended): for every register directive, the recursive-descent
rule parses, in order: the leading keyword, then the name as an
escape-decoded quoted string, then an optional identifier (present
exactly when the next token is an identifier atom), then the closing
parenthesis — the optional identifier is accepted between the quoted
name and the closing parenthesis, not between the keyword and the name;
an identifier before the name is an unexpected-token error. -/
theorem C6_register_rule :
    (∀ (s t : List Char) (bs : List Nat) (rest : List Tok) (ig : Option PError),
      escapeBytes s = .ok bs → utf8Decode? bs = some t →
      Register.parse ⟨[.lparen, .keyword "register", .str s, .rparen] ++ rest, ig⟩ =
        .ok (⟨t, none⟩, ⟨rest, ig⟩)) ∧
    (∀ (s t : List Char) (bs : List Nat) (id : String) (rest : List Tok) (ig : Option PError),
      escapeBytes s = .ok bs → utf8Decode? bs = some t →
      Register.parse ⟨[.lparen, .keyword "register", .str s, .ident id, .rparen] ++ rest, ig⟩ =
        .ok (⟨t, some id⟩, ⟨rest, ig⟩)) ∧
    (∀ (id : String) (rest : List Tok) (ig : Option PError),
      Register.parse ⟨.lparen :: .keyword "register" :: .ident id :: rest, ig⟩ =
        .error (Parser.error ⟨rest, ig⟩
          (.unexpected "Token String" (some (.ident id))))) := by
  refine ⟨?_, ?_, ?_⟩
  · intro s t bs rest ig hb ht
    simp +decide [Register.parse, parse_start_run, parseString, Parser.parse_escaped_text,
      Parser.parse_escaped, Parser.parse_maybe_id, Parser.peek, PM.run_bind, PM.run_pure,
      Parser.consume, expectRParen, hb, ht]
  · intro s t bs id rest ig hb ht
    simp +decide [Register.parse, parse_start_run, parseString, Parser.parse_escaped_text,
      Parser.parse_escaped, Parser.parse_maybe_id, Parser.peek, PM.run_bind, PM.run_pure,
      Parser.consume, expectRParen, hb, ht]
  · intro id rest ig
    simp +decide [Register.parse, parse_start_run, parseString, Parser.parse_maybe_id,
      Parser.peek, PM.run_bind, PM.run_pure, Parser.consume, Parser.unexpected_token,
      Parser.fail]

/-- Witness for C6 (amended): both register forms at a concrete name. -/
theorem C6_register_rule_witness :
    Register.parse ⟨[.lparen, .keyword "register", .str ['n'], .rparen], none⟩ =
      .ok (⟨['n'], none⟩, ⟨[], none⟩) ∧
    Register.parse ⟨[.lparen, .keyword "register", .str ['n'], .ident "$m", .rparen], none⟩ =
      .ok (⟨['n'], some "$m"⟩, ⟨[], none⟩) := by
  exact ⟨C6_register_rule.1 ['n'] ['n'] [110] [] none (by decide) (by decide),
    C6_register_rule.2.1 ['n'] ['n'] [110] "$m" [] none (by decide) (by decide)⟩

/-- Counterexample to C5 as stated: an assert_return wrapping a get
action with no expected constant after it fails to parse (the expected
constant is required for the global-read form). -/
theorem C5_counterexample :
    AssertReturn.parse ⟨[.lparen, .keyword "assert_return", .lparen, .keyword "get",
        .str ['e'], .rparen, .rparen], none⟩ =
      .error (.mk0 (.unexpected "Token LParen" (some .rparen)), ⟨[], none⟩) := by
  decide

/-- A successful GetGlobal::parse means the input began with '(get'. -/
theorem getGlobal_ok_shape {st : PState} {g : GetGlobal} {st2 : PState}
    (h : GetGlobal.parse st = .ok (g, st2)) :
    ∃ rest, st.toks = .lparen :: .keyword "get" :: rest := by
  unfold GetGlobal.parse at h
  obtain ⟨u, st1, h1, -⟩ := bind_ok_first h
  exact ⟨st1.toks, (parse_start_ok_shape h1).1⟩

/-- C5 (amended): in an assert_return directive the expected constant is
optional for an invoke action — when no constant follows, the assertion
parses with no expected value — but required for a get (global-read)
action: a get with no following constant is an unexpected-token parse
error. The spec's end-to-end example, a get with a constant, parses to
the global-read assertion. -/
theorem C5_assert_return_expected :
    (∀ (toks0 : List Tok) (ig : Option PError) (inv : Invoke) (st1 : PState) (rest : List Tok),
      Invoke.parse ⟨toks0, ig⟩ = .ok (inv, st1) →
      st1.toks = .rparen :: rest →
      AssertReturn.parse ⟨.lparen :: .keyword "assert_return" :: toks0, ig⟩ =
        .ok (.invokeAct inv none, ⟨rest, st1.ignoredError⟩)) ∧
    (∀ (toks0 : List Tok) (ig : Option PError) (g : GetGlobal) (st1 : PState) (rest : List Tok),
      GetGlobal.parse ⟨toks0, ig⟩ = .ok (g, st1) →
      st1.toks = .rparen :: rest →
      AssertReturn.parse ⟨.lparen :: .keyword "assert_return" :: toks0, ig⟩ =
        .error (Parser.error ⟨rest, st1.ignoredError⟩
          (.unexpected "Token LParen" (some .rparen)))) ∧
    AssertReturn.parse ⟨[.lparen, .keyword "assert_return", .lparen, .keyword "get",
        .str ['e'], .rparen, .lparen, .keyword "i32.const", .int .plus .dec ['4','2'],
        .rparen, .rparen], none⟩ =
      .ok (.globalAct ⟨none, ['e']⟩ (.i32 42), ⟨[], none⟩) := by
  refine ⟨?_, ?_, ?_⟩
  · intro toks0 ig inv st1 rest hinv hr
    obtain ⟨rest0, hsh⟩ := invoke_ok_shape hinv
    have hsh2 : toks0 = .lparen :: .keyword "invoke" :: rest0 := hsh
    subst hsh2
    simp +decide [AssertReturn.parse, parse_start_run, Parser.peek, PM.run_bind, PM.run_pure,
      Parser.consume, expectRParen, hinv, hr]
  · intro toks0 ig g st1 rest hget hr
    obtain ⟨rest0, hsh⟩ := getGlobal_ok_shape hget
    have hsh2 : toks0 = .lparen :: .keyword "get" :: rest0 := hsh
    subst hsh2
    simp +decide [AssertReturn.parse, parse_start_run, Parser.peek, PM.run_bind, PM.run_pure,
      Parser.consume, expectRParen, Const.parse, Parser.unexpected_token, Parser.fail,
      hget, hr]
  · decide

/-- Witness for C5 (amended): both rules applied at concrete inputs. -/
theorem C5_assert_return_expected_witness :
    AssertReturn.parse ⟨[.lparen, .keyword "assert_return", .lparen, .keyword "invoke",
        .str ['f'], .rparen, .rparen], none⟩ =
      .ok (.invokeAct ⟨none, ['f'], []⟩ none, ⟨[], none⟩) ∧
    AssertReturn.parse ⟨[.lparen, .keyword "assert_return", .lparen, .keyword "get",
        .str ['g'], .rparen, .rparen], none⟩ =
      .error (Parser.error ⟨[], none⟩ (.unexpected "Token LParen" (some .rparen))) := by
  exact ⟨C5_assert_return_expected.1 [.lparen, .keyword "invoke", .str ['f'], .rparen, .rparen]
      none ⟨none, ['f'], []⟩ ⟨[.rparen], none⟩ [] (by decide) (by decide),
    C5_assert_return_expected.2.1 [.lparen, .keyword "get", .str ['g'], .rparen, .rparen]
      none ⟨none, ['g']⟩ ⟨[.rparen], none⟩ [] (by decide) (by decide)⟩

/-- C2: for every directive beginning with '(module': if the
embedded-module parse (optional identifier, then the keyword quote or
binary) succeeds, the directive is the corresponding quote-module or
binary-module directive with the same final state; if it fails, the
parser re-parses the same tokens, from the original '(module' start, as
an inline module via the delegated module compiler — the compiler
receives exactly the snapshotted original token stream. In particular
'(module binary ...)' and '(module quote ...)' always yield embedded
module directives, and a '(module ...)' without those keywords always
resolves through the compiler as an inline-module directive. -/
theorem C2_module_ambiguity :
    (∀ (M : Type) (compile : Compile M) (st : PState) (m : EmbeddedModule) (st2 : PState),
      EmbeddedModule.parse st = .ok (m, st2) →
      Directive.parse compile st = .ok (embeddedDirective m, st2)) ∧
    (∀ (M : Type) (compile : Compile M) (st : PState) (rest : List Tok) (e : PError)
      (stE : PState),
      st.toks = .lparen :: .keyword "module" :: rest →
      EmbeddedModule.parse st = .error (e, stE) →
      Directive.parse compile st =
        match compile.run st.toks with
        | .ok (m, toks2) => .ok (.inlineModule m, ⟨toks2, some e⟩)
        | .error ce => .error (convertWatError ce, ⟨stE.toks, some e⟩)) ∧
    (∀ (M : Type) (compile : Compile M),
      Directive.parse compile ⟨[.lparen, .keyword "module", .keyword "binary", .str ['a'],
          .rparen], none⟩ = .ok (.binaryModule [97], ⟨[], none⟩) ∧
      Directive.parse compile ⟨[.lparen, .keyword "module", .keyword "quote", .str ['a'],
          .rparen], none⟩ = .ok (.quoteModule ['a'], ⟨[], none⟩)) ∧
    (∀ (M : Type) (compile : Compile M) (m : M) (toks2 : List Tok),
      compile.run [.lparen, .keyword "module", .lparen, .keyword "type", .lparen,
          .keyword "func", .rparen, .rparen, .rparen] = .ok (m, toks2) →
      Directive.parse compile ⟨[.lparen, .keyword "module", .lparen, .keyword "type", .lparen,
          .keyword "func", .rparen, .rparen, .rparen], none⟩ =
        .ok (.inlineModule m, ⟨toks2,
          some (.mk0 (.unexpected "quote or binary" (some .lparen)))⟩)) := by
  have hi : ∀ (M : Type) (compile : Compile M) (st : PState) (m : EmbeddedModule)
      (st2 : PState), EmbeddedModule.parse st = .ok (m, st2) →
      Directive.parse compile st = .ok (embeddedDirective m, st2) := by
    intro M compile st m st2 h
    obtain ⟨rest, hsh⟩ := embedded_ok_shape h
    rw [directive_parse_module_arm compile st rest hsh]
    unfold moduleArm
    rw [h]
    obtain ⟨emb⟩ := m
    cases emb <;> rfl
  have hii : ∀ (M : Type) (compile : Compile M) (st : PState) (rest : List Tok) (e : PError)
      (stE : PState),
      st.toks = .lparen :: .keyword "module" :: rest →
      EmbeddedModule.parse st = .error (e, stE) →
      Directive.parse compile st =
        match compile.run st.toks with
        | .ok (m, toks2) => .ok (.inlineModule m, ⟨toks2, some e⟩)
        | .error ce => .error (convertWatError ce, ⟨stE.toks, some e⟩) := by
    intro M compile st rest e stE hsh h
    rw [directive_parse_module_arm compile st rest hsh]
    unfold moduleArm
    rw [h]
  refine ⟨hi, hii, ?_, ?_⟩
  · intro M compile
    constructor
    · exact hi M compile _ ⟨.binary [97]⟩ ⟨[], none⟩ (by decide)
    · exact hi M compile _ ⟨.quote ['a']⟩ ⟨[], none⟩ (by decide)
  · intro M compile m toks2 hcomp
    rw [hii M compile _ [.lparen, .keyword "type", .lparen, .keyword "func", .rparen,
      .rparen, .rparen] (.mk0 (.unexpected "quote or binary" (some .lparen)))
      ⟨[.keyword "type", .lparen, .keyword "func", .rparen, .rparen, .rparen], none⟩
      rfl (by decide)]
    rw [hcomp]

/-- Witness for C2: the binary form resolves as an embedded module under
an always-failing compiler, and the inline form resolves through a
compiler that accepts it. -/
theorem C2_module_ambiguity_witness :
    Directive.parse failCompile ⟨[.lparen, .keyword "module", .keyword "binary", .str ['a'],
        .rparen], none⟩ = .ok (.binaryModule [97], ⟨[], none⟩) ∧
    Directive.parse dropCompile ⟨[.lparen, .keyword "module", .lparen, .keyword "type",
        .lparen, .keyword "func", .rparen, .rparen, .rparen], none⟩ =
      .ok (.inlineModule 0, ⟨[.keyword "module", .lparen, .keyword "type", .lparen,
        .keyword "func", .rparen, .rparen, .rparen],
        some (.mk0 (.unexpected "quote or binary" (some .lparen)))⟩) := by
  exact ⟨(C2_module_ambiguity.2.2.1 Nat failCompile).1,
    C2_module_ambiguity.2.2.2 Nat dropCompile 0 [.keyword "module", .lparen, .keyword "type",
      .lparen, .keyword "func", .rparen, .rparen, .rparen] (by decide)⟩

/-- Counterexample to C3 as stated: on the directive '(module )' with an
always-failing compiler, the embedded-module attempt fails with a
discarded error, the inline-module fallback also fails, and the error
returned to the caller carries no prior-error link at all — the
discarded first-attempt error is not attached to it (it is only retained
in the parser state's ignored-error slot). -/
theorem C3_counterexample :
    EmbeddedModule.parse ⟨[.lparen, .keyword "module", .rparen], none⟩ =
      .error (.mk0 (.unexpected "quote or binary" (some .rparen)), ⟨[], none⟩) ∧
    failCompile.run [.lparen, .keyword "module", .rparen] = .error 7 ∧
    Directive.parse failCompile ⟨[.lparen, .keyword "module", .rparen], none⟩ =
      .error (.mk0 (.wat 7),
        ⟨[], some (.mk0 (.unexpected "quote or binary" (some .rparen)))⟩) ∧
    (PError.mk0 (.wat 7)).prev = none := by
  exact ⟨by decide, by decide, by decide, rfl⟩

/-- C3 (amended): when the embedded-module attempt fails, the discarded
error is stored in the parser's ignored-error slot; if the inline-module
fallback then also fails, the error returned to the caller is the
converted compiler error and carries no prior-error link — the discarded
error stays in the parser state. The discarded error is attached, with
its own prior link cleared, to the next error the parser constructs
through its error constructor. No error value exposed by the parser has
a prior-error chain longer than one level. -/
theorem C3_error_chaining :
    (∀ (M : Type) (compile : Compile M) (st : PState) (rest : List Tok) (e : PError)
      (stE : PState) (ce : Nat),
      st.toks = .lparen :: .keyword "module" :: rest →
      EmbeddedModule.parse st = .error (e, stE) →
      compile.run st.toks = .error ce →
      Directive.parse compile st = .error (convertWatError ce, ⟨stE.toks, some e⟩) ∧
      (convertWatError ce).prev = none) ∧
    (∀ (st : PState) (ig : PError) (k : ErrKind), st.ignoredError = some ig →
      Parser.error st k = (.mk1 k (.mk0 ig.kind), { st with ignoredError := none }) ∧
      (PError.mk0 ig.kind).prev = none) ∧
    (∀ (M : Type) (compile : Compile M) (st : PState) (e : PError) (st2 : PState),
      Root.parse compile st = .error (e, st2) → e.depth ≤ 1) := by
  refine ⟨?_, ?_, ?_⟩
  · intro M compile st rest e stE ce hsh hemb hcomp
    constructor
    · rw [directive_parse_module_arm compile st rest hsh]
      unfold moduleArm
      rw [hemb, hcomp]
    · rfl
  · intro st ig k hig
    constructor
    · unfold Parser.error
      rw [hig]
    · rfl
  · intro M compile st e st2 h
    exact (root_parse_good compile).2 st e st2 h

/-- Witness for C3 (amended): the fallback-failure rule applied at a
concrete '(module $a )' directive with an always-failing compiler. -/
theorem C3_error_chaining_witness :
    Directive.parse failCompile ⟨[.lparen, .keyword "module", .ident "$a", .rparen], none⟩ =
      .error (convertWatError 7, ⟨[], some (.mk0 (.unexpected "quote or binary"
        (some .rparen)))⟩) ∧
    (convertWatError 7).prev = none := by
  exact C3_error_chaining.1 Nat failCompile
    ⟨[.lparen, .keyword "module", .ident "$a", .rparen], none⟩ [.ident "$a", .rparen]
    (.mk0 (.unexpected "quote or binary" (some .rparen))) ⟨[], none⟩ 7 rfl (by decide)
    (by decide)

/-- A directive-sequence decomposition always ends with an exhausted
token stream. -/
theorem dirSeq_ends_empty {M : Type} (compile : Compile M) :
    ∀ st l st2, DirSeq compile st l st2 → st2.toks = [] := by
  intro st l st2 h
  induction h with
  | done st h => exact h
  | step st chunk d st1 l st2 hp hc hs ih => exact ih

/-- A successful run of the Root loop decomposes the token stream into
consecutive chunks, one directive per chunk, appended to the accumulator
in source order. -/
theorem rootLoop_chunks {M : Type} (compile : Compile M) :
    ∀ (fuel : Nat) (acc : List (Directive M)) (st : PState) (ds : List (Directive M))
      (st2 : PState), rootLoop compile fuel acc st = .ok (ds, st2) →
      ∃ l, DirSeq compile st l st2 ∧ ds = acc ++ List.map Prod.snd l ∧
        st.toks = (List.map Prod.fst l).flatten ++ st2.toks := by
  intro fuel
  induction fuel with
  | zero =>
    intro acc st ds st2 h
    rw [rootLoop] at h
    simp [Parser.fail, Parser.error] at h
  | succ f ih =>
    intro acc st ds st2 h
    obtain ⟨toks, ig⟩ := st
    rw [rootLoop, PM.run_bind] at h
    cases toks with
    | nil =>
      simp [Parser.peek, PM.run_pure] at h
      obtain ⟨hds, hst2⟩ := h
      subst hds
      refine ⟨[], ?_, by simp, by simp [← hst2]⟩
      rw [← hst2]
      exact DirSeq.done _ rfl
    | cons t rest =>
      simp only [Parser.peek, List.head?_cons, List.tail_cons] at h
      obtain ⟨d, stm, hd, hrest⟩ := bind_ok_first h
      obtain ⟨chunk, hchunk⟩ := (directive_parse_good compile).1 ⟨t :: rest, ig⟩ d stm hd
      obtain ⟨l, hseq, hds, htk⟩ := ih (acc ++ [d]) stm ds st2 hrest
      refine ⟨(chunk, d) :: l, DirSeq.step _ chunk d stm l st2 hd hchunk.symm hseq, ?_, ?_⟩
      · simp [hds]
      · simp only [List.map_cons, List.flatten_cons, PState.toks]
        simp only [PState.toks] at hchunk
        rw [← hchunk, htk]
        simp [List.append_assoc]

/-- C4: parsing a Root is all-or-nothing and order-preserving. On
success the whole token stream has been consumed and it splits into
consecutive chunks, each parsed by the directive rule into the
corresponding directive of the result, in exactly source order — no
directive reordered or dropped, never a partial Root. (On failure the
result type carries exactly one structured error and no Root at all.) -/
theorem C4_root_order_preserving (M : Type) (compile : Compile M) (st : PState)
    (r : Root M) (st2 : PState) (h : Root.parse compile st = .ok (r, st2)) :
    st2.toks = [] ∧
    ∃ l, DirSeq compile st l st2 ∧
      r.directives = List.map Prod.snd l ∧
      st.toks = (List.map Prod.fst l).flatten := by
  unfold Root.parse at h
  split at h
  next ds st3 heq =>
    cases h
    obtain ⟨l, hseq, hds, htk⟩ := rootLoop_chunks compile (st.toks.length + 1) [] st ds st2 heq
    have hnil := dirSeq_ends_empty compile st l st2 hseq
    exact ⟨hnil, l, hseq, by simpa using hds, by simpa [hnil] using htk⟩
  next e2 heq => cases h

/-- Witness for C4: the order-preservation theorem applied to the
concrete two-directive script '(invoke "f") (register "m")'. -/
theorem C4_root_order_preserving_witness :
    (PState.mk [] none).toks = [] ∧
    ∃ l, DirSeq failCompile
        ⟨[Tok.lparen, Tok.keyword "invoke", Tok.str ['f'], Tok.rparen,
          Tok.lparen, Tok.keyword "register", Tok.str ['m'], Tok.rparen], none⟩
        l ⟨[], none⟩ ∧
      (Root.mk [Directive.invoke ⟨none, ['f'], []⟩,
          Directive.register ⟨['m'], none⟩]).directives = List.map Prod.snd l ∧
      [Tok.lparen, Tok.keyword "invoke", Tok.str ['f'], Tok.rparen,
        Tok.lparen, Tok.keyword "register", Tok.str ['m'], Tok.rparen] =
        (List.map Prod.fst l).flatten := by
  exact C4_root_order_preserving Nat failCompile
    ⟨[Tok.lparen, Tok.keyword "invoke", Tok.str ['f'], Tok.rparen,
      Tok.lparen, Tok.keyword "register", Tok.str ['m'], Tok.rparen], none⟩
    ⟨[Directive.invoke ⟨none, ['f'], []⟩, Directive.register ⟨['m'], none⟩]⟩
    ⟨[], none⟩ (by decide)

end Wain
